import Mathlib

/-!
Verification development for the HeroAgent job-scheduling subsystem
(backend/job_scheduler.py, backend/job_execution_tracker.py,
backend/request_utils.py and the lifespan logic of backend/main.py).

Times are modelled at minute granularity: a `DateTime` is a calendar day
index together with an hour and a minute.  The scheduler only ever compares
times chronologically (`scheduled_time < now`, age in hours) and reads the
calendar fields (`strftime` of the date, `hour`, `minute`, `weekday`), all of
which are captured exactly by this representation.  `weekday` is the day
index modulo 7, matching Python's arithmetic relation between dates and
weekdays up to a choice of epoch.
-/

set_option autoImplicit false

namespace HeroAgent

/-- Calendar timestamp at minute granularity.  `date` is the day index
(standing for the %Y-%m-%d date string), `hour` and `minute` the clock
fields used by the scheduler's due checks. -/
structure DateTime where
  date : Nat
  hour : Nat
  minute : Nat
deriving DecidableEq

/-- Total minutes since the epoch; chronological comparison of two
datetimes (Python's datetime ordering) is comparison of these values. -/
def DateTime.toMinutes (t : DateTime) : Nat :=
  t.date * 1440 + t.hour * 60 + t.minute

/-- Weekday of a date, as Python's datetime.weekday() (0 = Monday), modelled
as the day index modulo 7. -/
def DateTime.weekday (t : DateTime) : Nat := t.date % 7

/-- Chronological strict order on datetimes (Python's datetime lt). -/
def DateTime.isBefore (a b : DateTime) : Bool :=
  a.toMinutes < b.toMinutes

/-- Job types from class JobType in job_scheduler.py (the CUSTOM constant is
declared there but never scheduled, so it is omitted). -/
inductive JobType where
  | daily
  | hourly
  | weekly
deriving DecidableEq

/-- One entry of a user's parsed job_settings mapping: the fields the
scheduler reads after int() conversion of the stored strings. -/
structure JobConfig where
  type : JobType
  enabled : Bool
  hour : Nat
  minute : Nat
  dayOfWeek : Nat
deriving DecidableEq

/-- Execution id, from generate_execution_id in job_execution_tracker.py.
The source formats it as job_id + underscore + date + underscore + time with
a fixed-width 20-character suffix, so the string determines the pair
(job_id, scheduled_time) uniquely; the pair itself is therefore an exact
model of the id. -/
structure ExecId where
  jobId : String
  time : DateTime
deriving DecidableEq

/-- Mirror of generate_execution_id(job_id, scheduled_time). -/
def generate_execution_id (jobId : String) (scheduledTime : DateTime) : ExecId :=
  ⟨jobId, scheduledTime⟩

/-- One row of the herojobexecutions table (create_job_execution_record's
entity shape).  PartitionKey and RowKey are kept outside, as the table key. -/
structure JobRecord where
  jobId : String
  jobType : JobType
  scheduledTime : DateTime
  executionStartTime : Option DateTime
  executionEndTime : Option DateTime
  status : String
  errorMessage : Option String
deriving DecidableEq

/-- Table key: (PartitionKey = username, RowKey = execution id). -/
abbrev TblKey := String × ExecId

/-- The herojobexecutions Azure table, as an association list with unique
keys (Azure guarantees key uniqueness; operations below preserve it). -/
abbrev Table := List (TblKey × JobRecord)

/-- Azure get_entity: the first (only) binding of the key, if any. -/
def tblLookup (k : TblKey) : Table → Option JobRecord
  | [] => none
  | (k', r) :: t => if k' = k then some r else tblLookup k t

/-- Azure upsert_entity / update_entity: replace the binding in place, or
append a fresh one. -/
def tblUpsert (k : TblKey) (r : JobRecord) : Table → Table
  | [] => [(k, r)]
  | (k', r') :: t => if k' = k then (k, r) :: t else (k', r') :: tblUpsert k r t

theorem tblLookup_tblUpsert_self (k : TblKey) (r : JobRecord) (t : Table) :
    tblLookup k (tblUpsert k r t) = some r := by
  induction t with
  | nil => simp [tblUpsert, tblLookup]
  | cons p t ih =>
    obtain ⟨k', r'⟩ := p
    by_cases h : k' = k <;> simp [tblUpsert, tblLookup, h, ih]

theorem tblLookup_tblUpsert_ne (k k₀ : TblKey) (r : JobRecord) (t : Table)
    (h : k ≠ k₀) : tblLookup k (tblUpsert k₀ r t) = tblLookup k t := by
  have h' : ¬ (k₀ = k) := fun e => h e.symm
  induction t with
  | nil => simp [tblUpsert, tblLookup, h']
  | cons p t ih =>
    obtain ⟨k', r'⟩ := p
    by_cases hk : k' = k₀
    · subst hk
      simp [tblUpsert, tblLookup, h']
    · simp only [tblUpsert, if_neg hk]
      by_cases hk2 : k' = k <;> simp [tblLookup, hk2, ih]

/-- Python truthiness of the optional error_message argument (None and the
empty string are falsy). -/
def truthyMsg : Option String → Bool
  | none => false
  | some m => m != ""

/-- Mirror of update_job_execution_status in job_execution_tracker.py.
get_entity failure (record absent) is caught: the error is logged and
swallowed and the table is returned unchanged.  Otherwise the fetched
entity's status is set; when the new status is running the start time is
set only if not already present; when completed or failed the end time is
set and a truthy error message recorded; the entity is then written back. -/
def update_job_execution_status (username : String) (executionId : ExecId)
    (status : String) (errorMessage : Option String) (now : DateTime)
    (tbl : Table) : Table :=
  match tblLookup (username, executionId) tbl with
  | none => tbl
  | some entity =>
    let entity := { entity with status := status }
    let entity :=
      if status = "running" then
        if entity.executionStartTime = none then
          { entity with executionStartTime := some now }
        else entity
      else if status = "completed" ∨ status = "failed" then
        let entity := { entity with executionEndTime := some now }
        if truthyMsg errorMessage then { entity with errorMessage := errorMessage }
        else entity
      else entity
    tblUpsert (username, executionId) entity tbl

/-- The record update_job_execution_status writes back for a fetched record
r: status replaced, start time set only when the new status is running and
none was recorded, end time and (truthy) error message set only on
completed/failed, every other field untouched. -/
def updatedRecord (r : JobRecord) (status : String) (errorMessage : Option String)
    (now : DateTime) : JobRecord :=
  { r with
    status := status
    executionStartTime :=
      if status = "running" ∧ r.executionStartTime = none then some now
      else r.executionStartTime
    executionEndTime :=
      if status = "completed" ∨ status = "failed" then some now
      else r.executionEndTime
    errorMessage :=
      if (status = "completed" ∨ status = "failed") ∧ truthyMsg errorMessage then errorMessage
      else r.errorMessage }

theorem update_status_not_found (u : String) (eid : ExecId) (st : String)
    (em : Option String) (now : DateTime) (tbl : Table)
    (h : tblLookup (u, eid) tbl = none) :
    update_job_execution_status u eid st em now tbl = tbl := by
  simp [update_job_execution_status, h]

theorem update_status_lookup_ne (u : String) (eid : ExecId) (st : String)
    (em : Option String) (now : DateTime) (tbl : Table) (k : TblKey)
    (hk : k ≠ (u, eid)) :
    tblLookup k (update_job_execution_status u eid st em now tbl) = tblLookup k tbl := by
  unfold update_job_execution_status
  cases h : tblLookup (u, eid) tbl with
  | none => rfl
  | some r => exact tblLookup_tblUpsert_ne k (u, eid) _ tbl hk

theorem update_status_lookup_self (u : String) (eid : ExecId) (st : String)
    (em : Option String) (now : DateTime) (tbl : Table) (r : JobRecord)
    (hr : tblLookup (u, eid) tbl = some r) :
    tblLookup (u, eid) (update_job_execution_status u eid st em now tbl) =
      some (updatedRecord r st em now) := by
  unfold update_job_execution_status
  rw [hr]
  simp only [tblLookup_tblUpsert_self]
  congr 1
  unfold updatedRecord
  by_cases h1 : st = "running"
  · have h2 : ¬ (st = "completed" ∨ st = "failed") := by
      rintro (h | h) <;> simp [h] at h1
    by_cases h3 : r.executionStartTime = none <;> simp [h1, h2, h3]
  · by_cases h2 : st = "completed" ∨ st = "failed"
    · by_cases h3 : truthyMsg em = true <;> simp [h1, h2, h3]
    · simp [h1, h2]

/-- C10: update_job_execution_status modifies only the status field plus
execution_start_time (when the new status is running and none is recorded —
an existing start time is never overwritten) and execution_end_time /
error_message (when the new status is completed or failed); job_id,
job_type, scheduled_time and all other rows are unchanged, and when the
record cannot be fetched the table is left entirely unchanged (the error is
swallowed, not raised — the function is total). -/
theorem update_job_execution_status_spec (u : String) (eid : ExecId)
    (st : String) (em : Option String) (now : DateTime) (tbl : Table) :
    (tblLookup (u, eid) tbl = none →
      update_job_execution_status u eid st em now tbl = tbl) ∧
    (∀ k : TblKey, k ≠ (u, eid) →
      tblLookup k (update_job_execution_status u eid st em now tbl) = tblLookup k tbl) ∧
    (∀ r, tblLookup (u, eid) tbl = some r →
      tblLookup (u, eid) (update_job_execution_status u eid st em now tbl) =
        some (updatedRecord r st em now)) :=
  ⟨update_status_not_found u eid st em now tbl,
   fun k hk => update_status_lookup_ne u eid st em now tbl k hk,
   fun r hr => update_status_lookup_self u eid st em now tbl r hr⟩

/-- Concrete instantiation of the C10 theorem: a one-row table where the
record is updated to completed with an error message, and an empty table
where the fetch fails and nothing changes. -/
theorem update_job_execution_status_spec_witness :
    (update_job_execution_status "alice"
        ⟨"auto_challenge", ⟨10, 2, 0⟩⟩ "completed" (some "boom") ⟨10, 2, 5⟩ [] = []) ∧
    (tblLookup ("alice", ⟨"auto_challenge", ⟨10, 2, 0⟩⟩)
      (update_job_execution_status "alice" ⟨"auto_challenge", ⟨10, 2, 0⟩⟩
        "completed" (some "boom") ⟨10, 2, 5⟩
        [(("alice", ⟨"auto_challenge", ⟨10, 2, 0⟩⟩),
          ⟨"auto_challenge", JobType.daily, ⟨10, 2, 0⟩, some ⟨10, 2, 1⟩, none, "running", none⟩)]) =
      some (updatedRecord
        ⟨"auto_challenge", JobType.daily, ⟨10, 2, 0⟩, some ⟨10, 2, 1⟩, none, "running", none⟩
        "completed" (some "boom") ⟨10, 2, 5⟩)) :=
  ⟨(update_job_execution_status_spec "alice" ⟨"auto_challenge", ⟨10, 2, 0⟩⟩
      "completed" (some "boom") ⟨10, 2, 5⟩ []).1 rfl,
   (update_job_execution_status_spec "alice" ⟨"auto_challenge", ⟨10, 2, 0⟩⟩
      "completed" (some "boom") ⟨10, 2, 5⟩ _).2.2 _ rfl⟩

/-! Executor manager (job_scheduler.py, class ExecutorManager). -/

/-- One value of ExecutorManager.executors: the callable and its display
name.  Callables are modelled as total functions from the invocation
arguments to a result; execute_job forwards its *args unchanged. -/
structure ExecutorInfo (α β : Type) where
  run : α → β
  displayName : String

/-- The executors mapping, executor id → executor info. -/
abbrev ExecutorTable (α β : Type) := List (String × ExecutorInfo α β)

/-- Dictionary get on the executors mapping. -/
def lookupExecutor {α β : Type} (executorId : String) :
    ExecutorTable α β → Option (ExecutorInfo α β)
  | [] => none
  | (k, e) :: t => if k = executorId then some e else lookupExecutor executorId t

/-- Mirror of ExecutorManager.execute_job: look the id up and invoke the
stored callable with the given arguments; raise ValueError when the id is
not registered. -/
def execute_job {α β : Type} (executors : ExecutorTable α β)
    (executorId : String) (args : α) : Except String β :=
  match lookupExecutor executorId executors with
  | some info => Except.ok (info.run args)
  | none => Except.error ("Executor " ++ executorId ++ " not found")

/-- C8: execute_job raises if and only if the job id is not registered in the
executor table; when registered it invokes the registered callable with the
given arguments (pure lookup plus call, no scheduling logic). -/
theorem execute_job_spec {α β : Type} (executors : ExecutorTable α β)
    (executorId : String) (args : α) :
    ((∃ e, execute_job executors executorId args = Except.error e) ↔
      lookupExecutor executorId executors = none) ∧
    (∀ info, lookupExecutor executorId executors = some info →
      execute_job executors executorId args = Except.ok (info.run args)) := by
  constructor
  · cases h : lookupExecutor executorId executors with
    | none => simp [execute_job, h]
    | some info => simp [execute_job, h]
  · intro info h
    simp [execute_job, h]

/-- Concrete instantiation of the C8 theorem: a registered executor is
invoked with the given argument, and an unregistered id raises. -/
theorem execute_job_spec_witness :
    (execute_job [("auto_challenge", ⟨fun n => n + 1, "challenge"⟩)]
        "auto_challenge" 41 = Except.ok 42) ∧
    (∃ e, execute_job ([("auto_challenge", ⟨fun n => n + 1, "challenge"⟩)] :
        ExecutorTable Nat Nat) "wuguan" 41 = Except.error e) :=
  ⟨(execute_job_spec [("auto_challenge", ⟨fun n => n + 1, "challenge"⟩)]
      "auto_challenge" 41).2 ⟨fun n => n + 1, "challenge"⟩ rfl,
   (execute_job_spec [("auto_challenge", ⟨fun n => n + 1, "challenge"⟩)]
      "wuguan" 41).1.mpr rfl⟩

/-! Active request registry (request_utils.py), modelled in the initialized
state (set_request_globals has run, so request_lock is not None). -/

/-- Generic insertion into a list sorted by a boolean comparison. -/
def insertSorted {α : Type} (le : α → α → Bool) (a : α) : List α → List α
  | [] => [a]
  | b :: l => if le a b then a :: b :: l else b :: insertSorted le a l

/-- Insertion sort by a boolean comparison. -/
def sortBy {α : Type} (le : α → α → Bool) : List α → List α
  | [] => []
  | a :: l => insertSorted le a (sortBy le l)

/-- Python's sorted() on a list of strings. -/
def sortStrings (l : List String) : List String :=
  sortBy (fun a b => decide (a ≤ b)) l

/-- The value stored in active_requests for a key. -/
structure RequestEntry where
  username : String
  requestType : String
  accountNames : List String
  startTime : DateTime
deriving DecidableEq

/-- The data determining a request key.  The source builds the string
username : request_type : hash(tuple(sorted(account_names))); that string is
a function of exactly this triple, so the triple with the sorted account
list is the model of the key (collisions of Python's hash between distinct
account tuples are abstracted away). -/
abbrev RequestKey := String × String × List String

/-- Mirror of get_request_key. -/
def get_request_key (username requestType : String)
    (accountNames : List String) : RequestKey :=
  (username, requestType, sortStrings accountNames)

/-- The active_requests dictionary. -/
abbrev ActiveRequests := List (RequestKey × RequestEntry)

/-- Dictionary membership / fetch on active_requests. -/
def reqLookup (k : RequestKey) : ActiveRequests → Option RequestEntry
  | [] => none
  | (k', e) :: t => if k' = k then some e else reqLookup k t

/-- Mirror of mark_request_active: under the lock, return False when the key
is already present, otherwise record the entry (dict insertion appends) and
return True. -/
def mark_request_active (username requestType : String)
    (accountNames : List String) (now : DateTime)
    (reqs : ActiveRequests) : Bool × ActiveRequests :=
  let k := get_request_key username requestType accountNames
  match reqLookup k reqs with
  | some _ => (false, reqs)
  | none => (true, reqs ++ [(k, ⟨username, requestType, accountNames, now⟩)])

/-- Mirror of mark_request_inactive: under the lock, delete the key when
present (dict del removes the unique binding of the key; modelled as
removing every binding, which agrees on unique-key dictionaries), and leave
the dictionary untouched otherwise. -/
def mark_request_inactive (username requestType : String)
    (accountNames : List String) (reqs : ActiveRequests) : ActiveRequests :=
  let k := get_request_key username requestType accountNames
  match reqLookup k reqs with
  | some _ => reqs.filter (fun p => decide (p.1 ≠ k))
  | none => reqs

theorem reqLookup_append (k : RequestKey) (l l2 : ActiveRequests)
    (h : reqLookup k l = none) : reqLookup k (l ++ l2) = reqLookup k l2 := by
  induction l with
  | nil => simp
  | cons p t ih =>
    obtain ⟨k', e⟩ := p
    by_cases hk : k' = k
    · simp [reqLookup, hk] at h
    · simp only [reqLookup, if_neg hk] at h
      simpa [reqLookup, hk] using ih h

theorem reqLookup_filter_self (k : RequestKey) (l : ActiveRequests) :
    reqLookup k (l.filter (fun p => decide (p.1 ≠ k))) = none := by
  induction l with
  | nil => simp [reqLookup]
  | cons p t ih =>
    obtain ⟨k', e⟩ := p
    by_cases hk : k' = k
    · simpa [List.filter, hk] using ih
    · simpa [List.filter, hk, reqLookup] using ih

theorem mark_request_active_of_found (u t : String) (a : List String)
    (n : DateTime) (reqs : ActiveRequests) (e : RequestEntry)
    (h : reqLookup (get_request_key u t a) reqs = some e) :
    mark_request_active u t a n reqs = (false, reqs) := by
  simp only [mark_request_active]
  rw [h]

theorem mark_request_active_of_missing (u t : String) (a : List String)
    (n : DateTime) (reqs : ActiveRequests)
    (h : reqLookup (get_request_key u t a) reqs = none) :
    mark_request_active u t a n reqs =
      (true, reqs ++ [(get_request_key u t a, ⟨u, t, a, n⟩)]) := by
  simp only [mark_request_active]
  rw [h]

theorem mark_request_inactive_of_found (u t : String) (a : List String)
    (reqs : ActiveRequests) (e : RequestEntry)
    (h : reqLookup (get_request_key u t a) reqs = some e) :
    mark_request_inactive u t a reqs =
      reqs.filter (fun p => decide (p.1 ≠ get_request_key u t a)) := by
  simp only [mark_request_inactive]
  rw [h]

theorem mark_request_inactive_of_missing (u t : String) (a : List String)
    (reqs : ActiveRequests)
    (h : reqLookup (get_request_key u t a) reqs = none) :
    mark_request_inactive u t a reqs = reqs := by
  simp only [mark_request_inactive]
  rw [h]

/-- C7: for a fixed (username, request_type, account_names) triple with the
registry initialized: mark_request_active records the entry and returns True
when no matching key exists; a second call without an intervening
mark_request_inactive returns False and leaves the registry unchanged; after
mark_request_inactive a third mark_request_active returns True; and
mark_request_inactive with no matching entry leaves the registry unchanged. -/
theorem mark_request_active_spec (u t : String) (a : List String)
    (n₁ n₂ n₃ : DateTime) (reqs : ActiveRequests)
    (h : reqLookup (get_request_key u t a) reqs = none) :
    (mark_request_active u t a n₁ reqs).1 = true ∧
    reqLookup (get_request_key u t a) (mark_request_active u t a n₁ reqs).2 =
      some ⟨u, t, a, n₁⟩ ∧
    mark_request_active u t a n₂ (mark_request_active u t a n₁ reqs).2 =
      (false, (mark_request_active u t a n₁ reqs).2) ∧
    (mark_request_active u t a n₃
      (mark_request_inactive u t a (mark_request_active u t a n₁ reqs).2)).1 = true ∧
    mark_request_inactive u t a reqs = reqs := by
  have hstep := mark_request_active_of_missing u t a n₁ reqs h
  have hfound : reqLookup (get_request_key u t a)
      (mark_request_active u t a n₁ reqs).2 = some ⟨u, t, a, n₁⟩ := by
    rw [hstep]
    simp only []
    rw [reqLookup_append _ _ _ h]
    simp [reqLookup]
  have hgone : reqLookup (get_request_key u t a)
      (mark_request_inactive u t a (mark_request_active u t a n₁ reqs).2) = none := by
    rw [mark_request_inactive_of_found u t a _ _ hfound]
    exact reqLookup_filter_self _ _
  refine ⟨?_, hfound, ?_, ?_, ?_⟩
  · rw [hstep]
  · exact mark_request_active_of_found u t a n₂ _ _ hfound
  · rw [mark_request_active_of_missing u t a n₃ _ hgone]
  · exact mark_request_inactive_of_missing u t a reqs h

/-- Concrete instantiation of the C7 theorem on the empty registry. -/
theorem mark_request_active_spec_witness :
    reqLookup (get_request_key "alice" "hall_combat" ["b", "a"]) [] = none ∧
    (mark_request_active "alice" "hall_combat" ["b", "a"] ⟨1, 8, 0⟩ []).1 = true ∧
    (mark_request_active "alice" "hall_combat" ["b", "a"] ⟨1, 8, 5⟩
      (mark_request_active "alice" "hall_combat" ["b", "a"] ⟨1, 8, 0⟩ []).2).1 = false ∧
    (mark_request_active "alice" "hall_combat" ["b", "a"] ⟨1, 8, 9⟩
      (mark_request_inactive "alice" "hall_combat" ["b", "a"]
        (mark_request_active "alice" "hall_combat" ["b", "a"] ⟨1, 8, 0⟩ []).2)).1 = true := by
  have h : reqLookup (get_request_key "alice" "hall_combat" ["b", "a"])
      ([] : ActiveRequests) = none := rfl
  have hmain := mark_request_active_spec "alice" "hall_combat" ["b", "a"]
    ⟨1, 8, 0⟩ ⟨1, 8, 5⟩ ⟨1, 8, 9⟩ [] h
  exact ⟨h, hmain.1, by rw [hmain.2.2.1], hmain.2.2.2.1⟩

/-! Due checks of JobScheduler.run_jobs (job_scheduler.py lines 384-400). -/

/-- The should_run due check computed by run_jobs for an enabled job config
whose type equals the pass's job type. -/
def shouldRunJob (jobType : JobType) (cfg : JobConfig) (now : DateTime) : Bool :=
  match jobType with
  | .daily =>
      now.hour == cfg.hour && (now.minute == cfg.minute || now.minute == cfg.minute + 1)
  | .hourly => now.minute == cfg.minute
  | .weekly => now.weekday == cfg.dayOfWeek && now.hour == cfg.hour

/-- C2: the due predicate of run_jobs is exactly: hourly jobs are due iff the
current minute equals the configured minute; daily jobs are due iff the
current hour equals the configured hour and the current minute is the
configured minute or the configured minute plus one; weekly jobs are due iff
the current weekday equals the configured day and the current hour equals
the configured hour — the configured minute of a weekly job is not consulted
at trigger time. -/
theorem shouldRunJob_spec (cfg : JobConfig) (now : DateTime) :
    (shouldRunJob .hourly cfg now = true ↔ now.minute = cfg.minute) ∧
    (shouldRunJob .daily cfg now = true ↔
      now.hour = cfg.hour ∧ (now.minute = cfg.minute ∨ now.minute = cfg.minute + 1)) ∧
    (shouldRunJob .weekly cfg now = true ↔
      now.weekday = cfg.dayOfWeek ∧ now.hour = cfg.hour) ∧
    (∀ m : Nat, shouldRunJob .weekly { cfg with minute := m } now =
      shouldRunJob .weekly cfg now) := by
  refine ⟨?_, ?_, ?_, ?_⟩ <;> simp [shouldRunJob]

/-! Job collection and the priority queue of JobScheduler.run_jobs
(job_scheduler.py lines 349-473). -/

/-- Key of the in-memory job_execution_tracker: (username, job_id, date
string of the day). -/
abbrev TrackerKey := String × String × Nat

/-- The in-memory per-process tracker (dict modelled by its key set). -/
abbrev Tracker := List TrackerKey

/-- Mirror of _has_job_executed_today: membership of (username, job_id,
strftime of now's date) in the tracker. -/
def hasJobExecutedToday (username jobId : String) (now : DateTime)
    (tr : Tracker) : Bool :=
  decide ((username, jobId, now.date) ∈ tr)

/-- Scheduled time stored for a due job (lines 408-423): today's date with
the configured fields substituted, seconds zeroed. -/
def scheduledTimeFor (jobType : JobType) (cfg : JobConfig) (now : DateTime) :
    DateTime :=
  match jobType with
  | .daily => { now with hour := cfg.hour, minute := cfg.minute }
  | .hourly => { now with minute := cfg.minute }
  | .weekly => { now with hour := cfg.hour, minute := cfg.minute }

/-- Mirror of create_job_execution_record: upsert a fresh pending entity and
return its id (the table is initialized and the Azure upsert succeeds). -/
def create_job_execution_record (username jobId : String) (jobType : JobType)
    (scheduledTime : DateTime) (tbl : Table) : ExecId × Table :=
  let eid := generate_execution_id jobId scheduledTime
  (eid, tblUpsert (username, eid)
    ⟨jobId, jobType, scheduledTime, none, none, "pending", none⟩ tbl)

/-- Lines 425-450 of run_jobs: reuse the existing execution record if one
exists for this scheduled slot, otherwise create it. -/
def ensureExecutionRecord (username jobId : String) (jobType : JobType)
    (scheduledTime : DateTime) (tbl : Table) : ExecId × Table :=
  let eid := generate_execution_id jobId scheduledTime
  match tblLookup (username, eid) tbl with
  | some _ => (eid, tbl)
  | none => create_job_execution_record username jobId jobType scheduledTime tbl

/-- One tuple put on run_jobs' PriorityQueue: (priority, counter, username,
job settings payload, job id, job config, execution id). -/
structure QueueEntry where
  priority : Nat
  counter : Nat
  username : String
  jobId : String
  cfg : JobConfig
  execId : ExecId
deriving DecidableEq

/-- A user row of the herousers table, as read by run_jobs. -/
structure UserSettings where
  userType : String
  schedulingEnabled : Bool
  jobs : List (String × JobConfig)
deriving DecidableEq

/-- State threaded through run_jobs' collection loop: the executions table,
the FIFO counter and the entries already put on the queue. -/
structure CollectState where
  tbl : Table
  counter : Nat
  entries : List QueueEntry
deriving DecidableEq

/-- One iteration of the job loop of run_jobs (lines 379-450): enabled jobs
of the requested type that are due are queued with their schedule-time
priority, unless the daily/weekly in-memory tracker already records today's
run; the execution record is fetched or created. -/
def collectJob (jobType : JobType) (now : DateTime) (tracker : Tracker)
    (username jobId : String) (cfg : JobConfig) (s : CollectState) :
    CollectState :=
  if cfg.type = jobType ∧ cfg.enabled = true ∧ shouldRunJob jobType cfg now = true then
    if (jobType = .daily ∨ jobType = .weekly) ∧
        hasJobExecutedToday username jobId now tracker = true then s
    else
      let sched := scheduledTimeFor jobType cfg now
      let er := ensureExecutionRecord username jobId jobType sched s.tbl
      let priority : Nat :=
        match jobType with
        | .daily => cfg.hour * 60 + cfg.minute
        | .hourly => cfg.minute
        | .weekly => cfg.dayOfWeek * 24 + cfg.hour
      { tbl := er.2, counter := s.counter + 1,
        entries := s.entries ++ [⟨priority, s.counter, username, jobId, cfg, er.1⟩] }
  else s

/-- The per-user part of run_jobs' collection loop (lines 361-377): admins
and users with job scheduling disabled are skipped. -/
def collectUserJobs (jobType : JobType) (now : DateTime) (tracker : Tracker)
    (username : String) (us : UserSettings) (s : CollectState) : CollectState :=
  if us.userType = "admin" then s
  else if us.schedulingEnabled = false then s
  else us.jobs.foldl (fun s p => collectJob jobType now tracker username p.1 p.2 s) s

/-- The full collection phase of run_jobs over all users. -/
def collectDueJobs (jobType : JobType) (now : DateTime) (tracker : Tracker)
    (users : List (String × UserSettings)) (tbl : Table) : CollectState :=
  users.foldl (fun s p => collectUserJobs jobType now tracker p.1 p.2 s) ⟨tbl, 0, []⟩

/-- The order in which Python's PriorityQueue releases the queued tuples:
lexicographic on (priority, counter); counters are distinct, so comparison
never reaches the later tuple components. -/
def entryR (a b : QueueEntry) : Prop :=
  a.priority < b.priority ∨ (a.priority = b.priority ∧ a.counter ≤ b.counter)

instance entryR.decidableRel : DecidableRel entryR := fun a b => by
  unfold entryR; infer_instance

instance entryR.isTotal : IsTotal QueueEntry entryR :=
  ⟨by intro a b; unfold entryR; omega⟩

instance entryR.isTrans : IsTrans QueueEntry entryR :=
  ⟨by intro a b c; unfold entryR; omega⟩

/-- Draining run_jobs' PriorityQueue: repeatedly popping the minimal
(priority, counter, ...) tuple releases the entries in (priority,
counter)-lexicographic order, computed here by sorting. -/
def drainQueue (entries : List QueueEntry) : List QueueEntry :=
  List.insertionSort entryR entries

/-- Preservation of a predicate along a left fold. -/
theorem foldl_preserve {α β : Type} (P : β → Prop) (f : β → α → β)
    (h : ∀ b a, P b → P (f b a)) : ∀ (l : List α) (b), P b → P (l.foldl f b)
  | [], _, hb => hb
  | a :: t, b, hb => foldl_preserve P f h t (f b a) (h b a hb)

/-- A collectJob step either leaves the state unchanged or appends exactly
one entry carrying the fresh counter and the schedule-derived priority. -/
theorem collectJob_cases (jobType : JobType) (now : DateTime) (tracker : Tracker)
    (username jobId : String) (cfg : JobConfig) (s : CollectState) :
    collectJob jobType now tracker username jobId cfg s = s ∨
    ∃ pr eid tbl, collectJob jobType now tracker username jobId cfg s =
      { tbl := tbl, counter := s.counter + 1,
        entries := s.entries ++ [⟨pr, s.counter, username, jobId, cfg, eid⟩] } ∧
      ¬((jobType = .daily ∨ jobType = .weekly) ∧
        hasJobExecutedToday username jobId now tracker = true) ∧
      (jobType = .daily → pr = cfg.hour * 60 + cfg.minute) ∧
      (jobType = .hourly → pr = cfg.minute) ∧
      (jobType = .weekly → pr = cfg.dayOfWeek * 24 + cfg.hour) := by
  unfold collectJob
  by_cases h1 : cfg.type = jobType ∧ cfg.enabled = true ∧ shouldRunJob jobType cfg now = true
  · rw [if_pos h1]
    by_cases h2 : (jobType = .daily ∨ jobType = .weekly) ∧
        hasJobExecutedToday username jobId now tracker = true
    · rw [if_pos h2]; left; rfl
    · rw [if_neg h2]
      right
      refine ⟨_, _, _, rfl, h2, ?_, ?_, ?_⟩ <;> (intro h; subst h; rfl)
  · rw [if_neg h1]; left; rfl

/-- The counter discipline of the collection loop: all queued entries carry
counters below the running counter, in strictly increasing put order. -/
def CounterInv (s : CollectState) : Prop :=
  (∀ e ∈ s.entries, e.counter < s.counter) ∧
  s.entries.Pairwise (fun a b => a.counter < b.counter)

/-- Priorities follow the per-type formulas of lines 384-400. -/
def PriorityInv (jobType : JobType) (s : CollectState) : Prop :=
  ∀ e ∈ s.entries,
    (jobType = .daily → e.priority = e.cfg.hour * 60 + e.cfg.minute) ∧
    (jobType = .hourly → e.priority = e.cfg.minute) ∧
    (jobType = .weekly → e.priority = e.cfg.dayOfWeek * 24 + e.cfg.hour)

theorem collectJob_inv (jobType : JobType) (now : DateTime) (tracker : Tracker)
    (username jobId : String) (cfg : JobConfig) (s : CollectState)
    (h : CounterInv s ∧ PriorityInv jobType s) :
    CounterInv (collectJob jobType now tracker username jobId cfg s) ∧
    PriorityInv jobType (collectJob jobType now tracker username jobId cfg s) := by
  rcases collectJob_cases jobType now tracker username jobId cfg s with
    hc | ⟨pr, eid, tbl, hc, -, hp⟩
  · rw [hc]; exact h
  · rw [hc]
    obtain ⟨⟨hlt, hpair⟩, hprio⟩ := h
    refine ⟨⟨?_, ?_⟩, ?_⟩
    · intro e he
      rcases List.mem_append.mp he with he | he
      · exact Nat.lt_trans (hlt e he) (Nat.lt_succ_self _)
      · simp only [List.mem_singleton] at he
        subst he
        exact Nat.lt_succ_self _
    · refine List.pairwise_append.mpr ⟨hpair, List.pairwise_singleton _ _, ?_⟩
      intro a ha b hb
      simp only [List.mem_singleton] at hb
      subst hb
      exact hlt a ha
    · intro e he
      rcases List.mem_append.mp he with he | he
      · exact hprio e he
      · simp only [List.mem_singleton] at he
        subst he
        exact hp

theorem collectUserJobs_inv (jobType : JobType) (now : DateTime)
    (tracker : Tracker) (username : String) (us : UserSettings)
    (s : CollectState) (h : CounterInv s ∧ PriorityInv jobType s) :
    CounterInv (collectUserJobs jobType now tracker username us s) ∧
    PriorityInv jobType (collectUserJobs jobType now tracker username us s) := by
  unfold collectUserJobs
  split
  · exact h
  · split
    · exact h
    · exact foldl_preserve _ _
        (fun b a hb => collectJob_inv jobType now tracker username a.1 a.2 b hb)
        us.jobs s h

theorem collectDueJobs_inv (jobType : JobType) (now : DateTime)
    (tracker : Tracker) (users : List (String × UserSettings)) (tbl : Table) :
    CounterInv (collectDueJobs jobType now tracker users tbl) ∧
    PriorityInv jobType (collectDueJobs jobType now tracker users tbl) := by
  unfold collectDueJobs
  refine foldl_preserve _ _
    (fun b a hb => collectUserJobs_inv jobType now tracker a.1 a.2 b hb) users _ ?_
  refine ⟨⟨?_, ?_⟩, ?_⟩
  · intro e he; cases he
  · exact List.Pairwise.nil
  · intro e he; cases he

/-- C3: within a tick, every queued due job carries the priority hourly →
configured minute, daily → hour*60+minute, weekly → day_of_week*24+hour, and
run_jobs submits the queued jobs to the thread pool in ascending priority
order, first-in-first-out among equal priorities (the drained sequence is a
permutation of the queued entries, pairwise ordered by priority with
strictly increasing put counters on ties). -/
theorem run_jobs_priority_order (jobType : JobType) (now : DateTime)
    (tracker : Tracker) (users : List (String × UserSettings)) (tbl : Table) :
    (∀ e ∈ (collectDueJobs jobType now tracker users tbl).entries,
      (jobType = .daily → e.priority = e.cfg.hour * 60 + e.cfg.minute) ∧
      (jobType = .hourly → e.priority = e.cfg.minute) ∧
      (jobType = .weekly → e.priority = e.cfg.dayOfWeek * 24 + e.cfg.hour)) ∧
    (drainQueue (collectDueJobs jobType now tracker users tbl).entries).Perm
      (collectDueJobs jobType now tracker users tbl).entries ∧
    List.Pairwise
      (fun a b => a.priority < b.priority ∨
        (a.priority = b.priority ∧ a.counter < b.counter))
      (drainQueue (collectDueJobs jobType now tracker users tbl).entries) := by
  obtain ⟨⟨-, hpair⟩, hprio⟩ := collectDueJobs_inv jobType now tracker users tbl
  have hperm : (drainQueue (collectDueJobs jobType now tracker users tbl).entries).Perm
      (collectDueJobs jobType now tracker users tbl).entries :=
    List.perm_insertionSort entryR _
  refine ⟨hprio, hperm, ?_⟩
  have hsorted : List.Pairwise entryR
      (drainQueue (collectDueJobs jobType now tracker users tbl).entries) :=
    List.sorted_insertionSort entryR _
  have hne : List.Pairwise (fun a b : QueueEntry => a.counter ≠ b.counter)
      (drainQueue (collectDueJobs jobType now tracker users tbl).entries) := by
    have hnd : (collectDueJobs jobType now tracker users tbl).entries.Pairwise
        (fun a b : QueueEntry => a.counter ≠ b.counter) :=
      hpair.imp (fun hab => Nat.ne_of_lt hab)
    exact hperm.pairwise_iff (fun hab => (Ne.symm hab)) |>.mpr hnd
  refine (hsorted.and hne).imp ?_
  rintro a b ⟨hr | ⟨he, hle⟩, hnecnt⟩
  · exact Or.inl hr
  · exact Or.inr ⟨he, Nat.lt_of_le_of_ne hle hnecnt⟩

/-- Users used by the C3 witness: two daily jobs both inside the grace
window of the tick at 02:30, with schedule minutes 30 and 29. -/
def c3Users : List (String × UserSettings) :=
  [("alice", ⟨"player", true,
     [("auto_challenge", ⟨.daily, true, 2, 30, 0⟩),
      ("morning_routine", ⟨.daily, true, 2, 29, 0⟩)]⟩)]

/-- Concrete instantiation of the C3 theorem: the queue releases the
minute-29 job (priority 149, queued second) before the minute-30 job
(priority 150, queued first), and a daily job at hour 2, minute 0 is queued
with priority 120 = 2*60+0. -/
theorem run_jobs_priority_order_witness :
    ((drainQueue (collectDueJobs .daily ⟨10, 2, 30⟩ [] c3Users []).entries).map
        (fun e => (e.priority, e.counter)) = [(149, 1), (150, 0)]) ∧
    (∀ e ∈ (collectDueJobs .daily ⟨10, 2, 0⟩ []
        [("alice", ⟨"player", true, [("auto_challenge", ⟨.daily, true, 2, 0, 0⟩)]⟩)]
        []).entries,
      e.priority = e.cfg.hour * 60 + e.cfg.minute) ∧
    ((collectDueJobs .daily ⟨10, 2, 0⟩ []
        [("alice", ⟨"player", true, [("auto_challenge", ⟨.daily, true, 2, 0, 0⟩)]⟩)]
        []).entries.map (fun e => e.priority) = [120]) := by
  refine ⟨by decide, ?_, by decide⟩
  intro e he
  exact ((run_jobs_priority_order .daily ⟨10, 2, 0⟩ [] _ []).1 e he).1 rfl

/-! The worker JobScheduler._execute_single_job (lines 483-574). -/

/-- Value stored in the active_jobs map while a worker runs. -/
structure ActiveEntry where
  username : String
  jobId : String
  startTime : DateTime
deriving DecidableEq

/-- The active_jobs map, keyed by execution id. -/
abbrev ActiveJobs := List (ExecId × ActiveEntry)

/-- Dictionary fetch on active_jobs. -/
def activeLookup (k : ExecId) : ActiveJobs → Option ActiveEntry
  | [] => none
  | (k', e) :: t => if k' = k then some e else activeLookup k t

/-- Dictionary assignment on active_jobs. -/
def activeUpsert (k : ExecId) (e : ActiveEntry) : ActiveJobs → ActiveJobs
  | [] => [(k, e)]
  | (k', e') :: t => if k' = k then (k, e) :: t else (k', e') :: activeUpsert k e t

/-- Dictionary pop(k, None) on active_jobs: drop the binding of k. -/
def activeErase (k : ExecId) : ActiveJobs → ActiveJobs
  | [] => []
  | (k', e) :: t => if k' = k then activeErase k t else (k', e) :: activeErase k t

theorem activeLookup_erase_self (k : ExecId) (l : ActiveJobs) :
    activeLookup k (activeErase k l) = none := by
  induction l with
  | nil => rfl
  | cons p t ih =>
    obtain ⟨k', e⟩ := p
    by_cases hk : k' = k <;> simp [activeErase, activeLookup, hk, ih]

theorem activeLookup_erase_ne (k k₀ : ExecId) (l : ActiveJobs) (h : k ≠ k₀) :
    activeLookup k (activeErase k₀ l) = activeLookup k l := by
  induction l with
  | nil => rfl
  | cons p t ih =>
    obtain ⟨k', e⟩ := p
    have h2 : ¬ (k₀ = k) := fun e => h e.symm
    by_cases hk : k' = k₀
    · have hne : ¬ (k' = k) := by
        rw [hk]; exact fun e => h e.symm
      simp [activeErase, activeLookup, hk, hne, h2, ih]
    · by_cases hk2 : k' = k <;> simp [activeErase, activeLookup, hk, hk2, h, ih]

theorem activeLookup_upsert_ne (k k₀ : ExecId) (e : ActiveEntry)
    (l : ActiveJobs) (h : k ≠ k₀) :
    activeLookup k (activeUpsert k₀ e l) = activeLookup k l := by
  have h' : ¬ (k₀ = k) := fun e => h e.symm
  induction l with
  | nil => simp [activeUpsert, activeLookup, h']
  | cons p t ih =>
    obtain ⟨k', e'⟩ := p
    by_cases hk : k' = k₀
    · subst hk
      simp [activeUpsert, activeLookup, h']
    · simp only [activeUpsert, if_neg hk]
      by_cases hk2 : k' = k <;> simp [activeLookup, hk2, ih]

/-- Ghost log of the operations a worker performs, in program order. -/
inductive WorkerEvent where
  | statusUpdate (username : String) (eid : ExecId) (status : String)
      (errorMessage : Option String)
  | activeAdd (eid : ExecId)
  | invoke (username jobId : String) (cfg : JobConfig) (date : Nat)
  | activeRemove (eid : ExecId)
deriving DecidableEq

/-- Scheduler-side state threaded through workers: executions table,
in-memory daily/weekly tracker, active-jobs map, and the ghost event log. -/
structure MachState where
  tbl : Table
  tracker : Tracker
  active : ActiveJobs
  events : List WorkerEvent
deriving DecidableEq

/-- The scheduler's executor table: callables invoked with (username,
job_config), returning normally or raising with a message. -/
abbrev SchedExecutors := ExecutorTable (String × JobConfig) (Except String Unit)

/-- Next hourly scheduled time (lines 543-560): the configured minute of the
next hour, rolling over to hour 0 of the next day after 23. -/
def nextHourlyTime (cfg : JobConfig) (now : DateTime) : DateTime :=
  if now.hour + 1 ≥ 24 then ⟨now.date + 1, 0, cfg.minute⟩
  else ⟨now.date, now.hour + 1, cfg.minute⟩

/-- Mirror of JobScheduler._execute_single_job: mark the record running, add
the active-jobs entry, look up the executor (marking the record failed when
absent), record the daily/weekly tracker key, invoke the executor, mark the
record completed on normal return or failed with the exception text on
raise (creating the next pending record for hourly jobs on success), and in
every case — the finally block — remove the active-jobs entry.  The function
is total: a raising executor is caught at this boundary and never
propagates. -/
def executeSingleJob (executors : SchedExecutors) (jobType : JobType)
    (now : DateTime) (username jobId : String) (cfg : JobConfig) (eid : ExecId)
    (st : MachState) : MachState :=
  let st1 : MachState :=
    { st with
      tbl := update_job_execution_status username eid "running" none now st.tbl
      events := st.events ++ [.statusUpdate username eid "running" none] }
  let st2 : MachState :=
    { st1 with
      active := activeUpsert eid ⟨username, jobId, now⟩ st1.active
      events := st1.events ++ [.activeAdd eid] }
  match lookupExecutor jobId executors with
  | none =>
      let msg := "Executor not found for job " ++ jobId
      let st3 : MachState :=
        { st2 with
          tbl := update_job_execution_status username eid "failed" (some msg) now st2.tbl
          events := st2.events ++ [.statusUpdate username eid "failed" (some msg)] }
      { st3 with
        active := activeErase eid st3.active
        events := st3.events ++ [.activeRemove eid] }
  | some info =>
      let st3 : MachState :=
        if jobType = .daily ∨ jobType = .weekly then
          { st2 with tracker := (username, jobId, now.date) :: st2.tracker }
        else st2
      let st4 : MachState :=
        { st3 with events := st3.events ++ [.invoke username jobId cfg now.date] }
      match info.run (username, cfg) with
      | .ok _ =>
          let st5 : MachState :=
            { st4 with
              tbl := update_job_execution_status username eid "completed" none now st4.tbl
              events := st4.events ++ [.statusUpdate username eid "completed" none] }
          let st6 : MachState :=
            if jobType = .hourly then
              { st5 with
                tbl := (create_job_execution_record username jobId jobType
                  (nextHourlyTime cfg now) st5.tbl).2 }
            else st5
          { st6 with
            active := activeErase eid st6.active
            events := st6.events ++ [.activeRemove eid] }
      | .error emsg =>
          let st5 : MachState :=
            { st4 with
              tbl := update_job_execution_status username eid "failed" (some emsg) now st4.tbl
              events := st4.events ++ [.statusUpdate username eid "failed" (some emsg)] }
          { st5 with
            active := activeErase eid st5.active
            events := st5.events ++ [.activeRemove eid] }

/-- The dispatch loop of run_jobs (lines 458-481) after submission: every
submitted entry's worker runs; as_completed swallows per-job exceptions, so
processing continues past failures. -/
def processSubmitted (executors : SchedExecutors) (jobType : JobType)
    (now : DateTime) (subs : List QueueEntry) (st : MachState) : MachState :=
  subs.foldl
    (fun s e => executeSingleJob executors jobType now e.username e.jobId e.cfg e.execId s)
    st

/-- Recognizer for active-jobs removal events. -/
def isActiveRemoveEv : WorkerEvent → Bool
  | .activeRemove _ => true
  | _ => false

/-- The events a worker appends, as a function of the executor lookup and
the executor's outcome. -/
def workerEvents (executors : SchedExecutors) (now : DateTime)
    (username jobId : String) (cfg : JobConfig) (eid : ExecId) : List WorkerEvent :=
  [.statusUpdate username eid "running" none, .activeAdd eid] ++
  match lookupExecutor jobId executors with
  | none =>
      [.statusUpdate username eid "failed"
        (some ("Executor not found for job " ++ jobId)), .activeRemove eid]
  | some info =>
      [.invoke username jobId cfg now.date] ++
      match info.run (username, cfg) with
      | .ok _ => [.statusUpdate username eid "completed" none, .activeRemove eid]
      | .error emsg =>
          [.statusUpdate username eid "failed" (some emsg), .activeRemove eid]

theorem executeSingleJob_events (executors : SchedExecutors) (jobType : JobType)
    (now : DateTime) (username jobId : String) (cfg : JobConfig) (eid : ExecId)
    (st : MachState) :
    (executeSingleJob executors jobType now username jobId cfg eid st).events =
      st.events ++ workerEvents executors now username jobId cfg eid := by
  unfold executeSingleJob workerEvents
  cases hex : lookupExecutor jobId executors with
  | none => simp [hex]
  | some info =>
      cases hrun : info.run (username, cfg) with
      | ok u => simp [hex, hrun, apply_ite MachState.events]
      | error emsg => simp [hex, hrun, apply_ite MachState.events]

theorem executeSingleJob_active (executors : SchedExecutors) (jobType : JobType)
    (now : DateTime) (username jobId : String) (cfg : JobConfig) (eid : ExecId)
    (st : MachState) :
    (executeSingleJob executors jobType now username jobId cfg eid st).active =
      activeErase eid (activeUpsert eid ⟨username, jobId, now⟩ st.active) := by
  unfold executeSingleJob
  cases hex : lookupExecutor jobId executors with
  | none => simp [hex]
  | some info =>
      cases hrun : info.run (username, cfg) with
      | ok u => simp [hex, hrun, apply_ite MachState.active]
      | error emsg => simp [hex, hrun, apply_ite MachState.active]

theorem executeSingleJob_tracker (executors : SchedExecutors) (jobType : JobType)
    (now : DateTime) (username jobId : String) (cfg : JobConfig) (eid : ExecId)
    (st : MachState) :
    (executeSingleJob executors jobType now username jobId cfg eid st).tracker =
      match lookupExecutor jobId executors with
      | none => st.tracker
      | some _ =>
          if jobType = .daily ∨ jobType = .weekly then
            (username, jobId, now.date) :: st.tracker
          else st.tracker := by
  unfold executeSingleJob
  cases hex : lookupExecutor jobId executors with
  | none => simp [hex]
  | some info =>
      cases hrun : info.run (username, cfg) with
      | ok u => simp [hex, hrun, apply_ite MachState.tracker]
      | error emsg => simp [hex, hrun, apply_ite MachState.tracker]

theorem workerEvents_removal_count (executors : SchedExecutors) (now : DateTime)
    (username jobId : String) (cfg : JobConfig) (eid : ExecId) :
    (workerEvents executors now username jobId cfg eid).countP isActiveRemoveEv = 1 := by
  unfold workerEvents
  cases hex : lookupExecutor jobId executors with
  | none => simp [hex, List.countP_append, List.countP_cons, isActiveRemoveEv]
  | some info =>
      cases hrun : info.run (username, cfg) with
      | ok u => simp [hex, hrun, List.countP_append, List.countP_cons, isActiveRemoveEv]
      | error emsg => simp [hex, hrun, List.countP_append, List.countP_cons, isActiveRemoveEv]

theorem processSubmitted_removal_count (executors : SchedExecutors)
    (jobType : JobType) (now : DateTime) :
    ∀ (subs : List QueueEntry) (st : MachState),
      (processSubmitted executors jobType now subs st).events.countP isActiveRemoveEv =
        st.events.countP isActiveRemoveEv + subs.length := by
  intro subs
  induction subs with
  | nil => intro st; simp [processSubmitted]
  | cons e t ih =>
    intro st
    have hstep : (processSubmitted executors jobType now (e :: t) st) =
        processSubmitted executors jobType now t
          (executeSingleJob executors jobType now e.username e.jobId e.cfg e.execId st) := rfl
    rw [hstep, ih, executeSingleJob_events, List.countP_append,
      workerEvents_removal_count, List.length_cons]
    omega

/-- C6: a worker executing one job marks the execution record running, adds
the active-jobs entry, invokes the registered executor with (username,
job_config), marks the record completed on normal return or failed with the
captured exception text on raise (failed with an executor-not-found message
when the job id is unregistered, without invoking anything), and removes the
active-jobs entry in every case, leaving all other active entries untouched;
the worker is a total function and the dispatch loop processes every
submitted job through its removal step, so one job's exception never
propagates to abort other jobs or the scheduler. -/
theorem execute_single_job_spec (executors : SchedExecutors) (jobType : JobType)
    (now : DateTime) (username jobId : String) (cfg : JobConfig) (eid : ExecId)
    (st : MachState) :
    (lookupExecutor jobId executors = none →
      (executeSingleJob executors jobType now username jobId cfg eid st).events =
        st.events ++
          [.statusUpdate username eid "running" none, .activeAdd eid,
           .statusUpdate username eid "failed"
             (some ("Executor not found for job " ++ jobId)),
           .activeRemove eid]) ∧
    (∀ info, lookupExecutor jobId executors = some info →
      (info.run (username, cfg) = Except.ok () →
        (executeSingleJob executors jobType now username jobId cfg eid st).events =
          st.events ++
            [.statusUpdate username eid "running" none, .activeAdd eid,
             .invoke username jobId cfg now.date,
             .statusUpdate username eid "completed" none, .activeRemove eid]) ∧
      (∀ emsg, info.run (username, cfg) = Except.error emsg →
        (executeSingleJob executors jobType now username jobId cfg eid st).events =
          st.events ++
            [.statusUpdate username eid "running" none, .activeAdd eid,
             .invoke username jobId cfg now.date,
             .statusUpdate username eid "failed" (some emsg), .activeRemove eid])) ∧
    activeLookup eid
      (executeSingleJob executors jobType now username jobId cfg eid st).active = none ∧
    (∀ k, k ≠ eid →
      activeLookup k
        (executeSingleJob executors jobType now username jobId cfg eid st).active =
        activeLookup k st.active) ∧
    (∀ (subs : List QueueEntry) (st₀ : MachState),
      (processSubmitted executors jobType now subs st₀).events.countP isActiveRemoveEv =
        st₀.events.countP isActiveRemoveEv + subs.length) := by
  refine ⟨?_, ?_, ?_, ?_, ?_⟩
  · intro hex
    rw [executeSingleJob_events]
    unfold workerEvents
    rw [hex]
    simp
  · intro info hex
    constructor
    · intro hrun
      rw [executeSingleJob_events]
      unfold workerEvents
      rw [hex]
      simp [hrun]
    · intro emsg hrun
      rw [executeSingleJob_events]
      unfold workerEvents
      rw [hex]
      simp [hrun]
  · rw [executeSingleJob_active]
    exact activeLookup_erase_self eid _
  · intro k hk
    rw [executeSingleJob_active, activeLookup_erase_ne _ _ _ hk,
      activeLookup_upsert_ne _ _ _ _ hk]
  · exact processSubmitted_removal_count executors jobType now

/-- Concrete worker state and executor table for the C6 witness. -/
def c6Executors : SchedExecutors :=
  [("auto_challenge", ⟨fun _ => Except.ok (), "challenge"⟩),
   ("wuguan", ⟨fun _ => Except.error "boom", "wuguan hall"⟩)]

/-- Concrete instantiation of the C6 theorem: a succeeding executor's event
sequence, a raising executor's event sequence with the captured text, and
removal of the active entry in both cases. -/
theorem execute_single_job_spec_witness :
    ((executeSingleJob c6Executors .daily ⟨10, 2, 0⟩ "alice" "auto_challenge"
        ⟨.daily, true, 2, 0, 0⟩ ⟨"auto_challenge", ⟨10, 2, 0⟩⟩
        ⟨[], [], [], []⟩).events =
      [.statusUpdate "alice" ⟨"auto_challenge", ⟨10, 2, 0⟩⟩ "running" none,
       .activeAdd ⟨"auto_challenge", ⟨10, 2, 0⟩⟩,
       .invoke "alice" "auto_challenge" ⟨.daily, true, 2, 0, 0⟩ 10,
       .statusUpdate "alice" ⟨"auto_challenge", ⟨10, 2, 0⟩⟩ "completed" none,
       .activeRemove ⟨"auto_challenge", ⟨10, 2, 0⟩⟩]) ∧
    ((executeSingleJob c6Executors .daily ⟨10, 2, 0⟩ "alice" "wuguan"
        ⟨.daily, true, 2, 0, 0⟩ ⟨"wuguan", ⟨10, 2, 0⟩⟩
        ⟨[], [], [], []⟩).events =
      [.statusUpdate "alice" ⟨"wuguan", ⟨10, 2, 0⟩⟩ "running" none,
       .activeAdd ⟨"wuguan", ⟨10, 2, 0⟩⟩,
       .invoke "alice" "wuguan" ⟨.daily, true, 2, 0, 0⟩ 10,
       .statusUpdate "alice" ⟨"wuguan", ⟨10, 2, 0⟩⟩ "failed" (some "boom"),
       .activeRemove ⟨"wuguan", ⟨10, 2, 0⟩⟩]) ∧
    activeLookup ⟨"wuguan", ⟨10, 2, 0⟩⟩
      (executeSingleJob c6Executors .daily ⟨10, 2, 0⟩ "alice" "wuguan"
        ⟨.daily, true, 2, 0, 0⟩ ⟨"wuguan", ⟨10, 2, 0⟩⟩ ⟨[], [], [], []⟩).active = none := by
  have h1 := execute_single_job_spec c6Executors .daily ⟨10, 2, 0⟩ "alice"
    "auto_challenge" ⟨.daily, true, 2, 0, 0⟩ ⟨"auto_challenge", ⟨10, 2, 0⟩⟩
    ⟨[], [], [], []⟩
  have h2 := execute_single_job_spec c6Executors .daily ⟨10, 2, 0⟩ "alice"
    "wuguan" ⟨.daily, true, 2, 0, 0⟩ ⟨"wuguan", ⟨10, 2, 0⟩⟩ ⟨[], [], [], []⟩
  refine ⟨?_, ?_, h2.2.2.1⟩
  · have := (h1.2.1 ⟨fun _ => Except.ok (), "challenge"⟩ rfl).1 rfl
    simpa using this
  · have := (h2.2.1 ⟨fun _ => Except.error "boom", "wuguan hall"⟩ rfl).2 "boom" rfl
    simpa using this

/-! Shutdown behaviour: the submission loop of run_jobs (lines 458-473) and
the lifespan shutdown wait of main.py (lines 230-252). -/

/-- The job-submission loop of run_jobs (lines 461-473): while the queue is
nonempty, the shutdown flag is read (observation i at iteration i) and, once
observed set, the loop breaks and no further job is submitted; otherwise the
next entry is popped and submitted to the pool.  The pause flag is not read
inside this loop. -/
def submitLoop (shutdownAt : Nat → Bool) : Nat → List QueueEntry → List QueueEntry
  | _, [] => []
  | i, e :: rest => if shutdownAt i then [] else e :: submitLoop shutdownAt (i + 1) rest

/-- A full run_jobs pass's submissions (lines 338-347 and 458-473): the pass
is skipped outright when shutdown is already requested or the scheduler is
paused at pass start; afterwards the drained queue is submitted with a
shutdown check before each submission.  The pause flag is read exactly once,
at pass start. -/
def runJobsSubmissions (shutdownAtStart pausedAtStart : Bool)
    (shutdownInLoop : Nat → Bool) (entries : List QueueEntry) : List QueueEntry :=
  if shutdownAtStart then []
  else if pausedAtStart then []
  else submitLoop shutdownInLoop 0 (drainQueue entries)

/-- Modelled from the claim's wording (and spec section 4.1): a submission
loop that would re-check the pause flag, alongside the shutdown flag, before
each individual submission. -/
def submitLoopWithPause (shutdownAt pausedAt : Nat → Bool) :
    Nat → List QueueEntry → List QueueEntry
  | _, [] => []
  | i, e :: rest =>
      if shutdownAt i || pausedAt i then []
      else e :: submitLoopWithPause shutdownAt pausedAt (i + 1) rest

/-- Queue entry used by the C5 counterexample. -/
def c5Entry : QueueEntry :=
  ⟨120, 0, "alice", "auto_challenge", ⟨.daily, true, 2, 0, 0⟩,
   ⟨"auto_challenge", ⟨10, 2, 0⟩⟩⟩

/-- C5 counterexample: with shutdown never requested and the pause flag
continuously set during the submission loop (having been clear at pass
start), run_jobs still submits the queued job — the source's submission loop
never consults the pause flag — whereas the claimed loop, which checks the
pause flag before each individual submission, would submit nothing. -/
theorem run_jobs_pause_submission_counterexample :
    runJobsSubmissions false false (fun _ => false) [c5Entry] = [c5Entry] ∧
    submitLoopWithPause (fun _ => false) (fun _ => true) 0
      (drainQueue [c5Entry]) = [] := by
  constructor <;> rfl

/-- The shutdown wait of main.py's lifespan (lines 238-252), polling the
active-jobs count every 5 seconds: break cleanly when the count reaches 0,
break with a warning when the elapsed time (5 seconds per completed poll)
exceeds the 1800-second (30-minute) bound.  Structured over a poll budget;
the budget of 362 polls is never exhausted because 5 * 361 > 1800. -/
def waitLoopAux (counts : Nat → Nat) : Nat → Nat → Bool × Nat
  | 0, i => (false, i)
  | left + 1, i =>
      if counts i = 0 then (true, i)
      else if 5 * i > 1800 then (false, i)
      else waitLoopAux counts left (i + 1)

/-- The full shutdown wait, from poll 0. -/
def shutdownWaitLoop (counts : Nat → Nat) : Bool × Nat :=
  waitLoopAux counts 362 0

theorem waitLoopAux_spec (counts : Nat → Nat) :
    ∀ (left i : Nat), left + i = 362 →
      ((waitLoopAux counts left i).1 = true →
        counts (waitLoopAux counts left i).2 = 0) ∧
      ((waitLoopAux counts left i).1 = false →
        5 * (waitLoopAux counts left i).2 > 1800) ∧
      (∀ j, i ≤ j → j < (waitLoopAux counts left i).2 →
        counts j ≠ 0 ∧ 5 * j ≤ 1800) ∧
      i ≤ (waitLoopAux counts left i).2 := by
  intro left
  induction left with
  | zero =>
    intro i hi
    refine ⟨?_, ?_, ?_, Nat.le_refl i⟩
    · intro h; simp [waitLoopAux] at h
    · intro _; simp only [waitLoopAux]; omega
    · intro j hij hj; simp only [waitLoopAux] at hj; omega
  | succ left ih =>
    intro i hi
    by_cases h0 : counts i = 0
    · simp only [waitLoopAux, if_pos h0]
      exact ⟨fun _ => h0, by simp, fun j hij hj => absurd (Nat.lt_of_le_of_lt hij hj)
        (Nat.lt_irrefl i), Nat.le_refl i⟩
    · by_cases h1 : 5 * i > 1800
      · simp only [waitLoopAux, if_neg h0, if_pos h1]
        exact ⟨by simp, fun _ => h1, fun j hij hj => absurd (Nat.lt_of_le_of_lt hij hj)
          (Nat.lt_irrefl i), Nat.le_refl i⟩
      · have hrec : waitLoopAux counts (left + 1) i = waitLoopAux counts left (i + 1) := by
          simp only [waitLoopAux, if_neg h0, if_neg h1]
        obtain ⟨ha, hb, hc, hd⟩ := ih (i + 1) (by omega)
        rw [hrec]
        refine ⟨ha, hb, ?_, Nat.le_trans (Nat.le_succ i) hd⟩
        intro j hij hj
        by_cases hji : j = i
        · subst hji; exact ⟨h0, by omega⟩
        · exact hc j (by omega) hj

/-- C5 (amended): the submission loop of run_jobs checks only the shutdown
flag before each individual job submission (the pause flag is consulted
once, at the start of the pass, where either flag being set skips the whole
pass); the submitted jobs are an initial prefix of the drained queue, every
submission was preceded by a clear shutdown read, and a truncated loop
stopped exactly because the flag was observed set, after which no further
job is submitted; jobs already submitted all run to completion (each
submitted job's worker runs through its active-entry removal); and process
exit blocks until the active-jobs map is empty or the 30-minute bound is
exceeded, polling every 5 seconds: the wait loop returns cleanly only at a
poll observing zero active jobs, returns on timeout only past 1800 seconds,
and never exits while jobs remain within the bound. -/
theorem run_jobs_shutdown_spec :
    (∀ (p : Bool) (sIn : Nat → Bool) (entries : List QueueEntry),
      runJobsSubmissions true p sIn entries = []) ∧
    (∀ (s : Bool) (sIn : Nat → Bool) (entries : List QueueEntry),
      runJobsSubmissions s true sIn entries = []) ∧
    (∀ (sIn : Nat → Bool) (q : List QueueEntry) (i : Nat),
      ∃ n, submitLoop sIn i q = q.take n ∧
        (∀ j, j < n → sIn (i + j) = false) ∧
        (n < q.length → sIn (i + n) = true)) ∧
    (∀ (executors : SchedExecutors) (jobType : JobType) (now : DateTime)
        (subs : List QueueEntry) (st₀ : MachState),
      (processSubmitted executors jobType now subs st₀).events.countP isActiveRemoveEv =
        st₀.events.countP isActiveRemoveEv + subs.length) ∧
    (∀ counts : Nat → Nat,
      ((shutdownWaitLoop counts).1 = true →
        counts (shutdownWaitLoop counts).2 = 0) ∧
      ((shutdownWaitLoop counts).1 = false →
        5 * (shutdownWaitLoop counts).2 > 1800) ∧
      (∀ j, j < (shutdownWaitLoop counts).2 → counts j ≠ 0 ∧ 5 * j ≤ 1800)) := by
  refine ⟨?_, ?_, ?_, ?_, ?_⟩
  · intro p sIn entries; rfl
  · intro s sIn entries; cases s <;> rfl
  · intro sIn q
    induction q with
    | nil =>
      intro i
      exact ⟨0, rfl, fun j hj => absurd hj (Nat.not_lt_zero j), fun h => absurd h (by simp)⟩
    | cons e rest ih =>
      intro i
      by_cases hs : sIn i = true
      · refine ⟨0, ?_, fun j hj => absurd hj (Nat.not_lt_zero j), fun _ => by simpa using hs⟩
        simp [submitLoop, hs]
      · obtain ⟨n, htake, hclear, hstop⟩ := ih (i + 1)
        refine ⟨n + 1, ?_, ?_, ?_⟩
        · simp only [submitLoop, if_neg hs, htake, List.take_succ_cons]
        · intro j hj
          cases j with
          | zero => simpa using (Bool.not_eq_true _).mp hs
          | succ j =>
            have := hclear j (by omega)
            simpa [Nat.add_assoc, Nat.add_comm 1 j] using this
        · intro hn
          have := hstop (by simpa using Nat.lt_of_succ_lt_succ hn)
          simpa [Nat.add_assoc, Nat.add_comm 1 n] using this
  · exact fun executors jobType now subs st₀ =>
      processSubmitted_removal_count executors jobType now subs st₀
  · intro counts
    obtain ⟨ha, hb, hc, -⟩ := waitLoopAux_spec counts 362 0 rfl
    exact ⟨ha, hb, fun j hj => hc j (Nat.zero_le j) hj⟩

/-- Concrete instantiation of the C5 theorem: a pass with shutdown already
requested submits nothing; a shutdown observed after the first submission
stops the loop after exactly one of three queued jobs; and a wait over an
active count that reaches zero at poll 2 exits cleanly at poll 2. -/
theorem run_jobs_shutdown_spec_witness :
    runJobsSubmissions true false (fun _ => false) [c5Entry] = [] ∧
    submitLoop (fun i => decide (1 ≤ i)) 0 [c5Entry, c5Entry, c5Entry] = [c5Entry] ∧
    shutdownWaitLoop (fun i => if i < 2 then 3 else 0) = (true, 2) ∧
    (fun i : Nat => if i < 2 then 3 else 0)
      (shutdownWaitLoop (fun i => if i < 2 then 3 else 0)).2 = 0 := by
  have h := run_jobs_shutdown_spec
  refine ⟨h.1 false (fun _ => false) [c5Entry], by decide, by decide, ?_⟩
  exact (h.2.2.2.2 (fun i => if i < 2 then 3 else 0)).1 (by decide)

/-! De-duplication of daily/weekly jobs (C1): sequential multi-tick model. -/

/-- Queue entries belonging to user u's job j. -/
def entryMatches (u j : String) (e : QueueEntry) : Bool :=
  decide (e.username = u ∧ e.jobId = j)

/-- Invocation events of user u's job j on calendar date d. -/
def isInvokeFor (u j : String) (d : Nat) : WorkerEvent → Bool
  | .invoke u' j' _ d' => decide (u' = u ∧ j' = j ∧ d' = d)
  | _ => false

/-- Number of executor invocations recorded for (u, j, d). -/
def invokeCount (u j : String) (d : Nat) (events : List WorkerEvent) : Nat :=
  events.countP (isInvokeFor u j d)

/-- Usernames are pairwise distinct (they key a dict) and so are each
user's job ids (job_settings is a dict). -/
def WellFormedUsers (users : List (String × UserSettings)) : Prop :=
  (users.map Prod.fst).Nodup ∧ ∀ p ∈ users, (p.2.jobs.map Prod.fst).Nodup

/-- One scheduling pass of run_jobs in the sequential execution model:
collect the due jobs against the current tracker and table, drain the
priority queue, and run each submitted job's worker to completion in
submission order.  (Workers run on a thread pool in the source and the pass
joins them — as_completed — before returning; ticks fire a minute apart, so
tracker writes made by one pass's workers are visible to the next pass.) -/
def runJobsPass (executors : SchedExecutors) (jobType : JobType)
    (users : List (String × UserSettings)) (now : DateTime)
    (st : MachState) : MachState :=
  let c := collectDueJobs jobType now st.tracker users st.tbl
  processSubmitted executors jobType now (drainQueue c.entries)
    { st with tbl := c.tbl }

/-- A sequence of scheduler ticks. -/
def runTicks (executors : SchedExecutors) (jobType : JobType)
    (users : List (String × UserSettings)) (ticks : List DateTime)
    (st : MachState) : MachState :=
  ticks.foldl (fun s t => runJobsPass executors jobType users t s) st

theorem collectJob_countP_other (jobType : JobType) (now : DateTime)
    (tracker : Tracker) (un jid : String) (cfg : JobConfig) (s : CollectState)
    (u j : String) (h : ¬(un = u ∧ jid = j)) :
    ((collectJob jobType now tracker un jid cfg s).entries.countP (entryMatches u j)) =
      s.entries.countP (entryMatches u j) := by
  rcases collectJob_cases jobType now tracker un jid cfg s with
    hc | ⟨pr, eid, tbl, hc, -, -⟩
  · rw [hc]
  · rw [hc]
    simp [List.countP_append, List.countP_cons, entryMatches, h]

theorem collectJob_countP_le (jobType : JobType) (now : DateTime)
    (tracker : Tracker) (un jid : String) (cfg : JobConfig) (s : CollectState)
    (u j : String) :
    ((collectJob jobType now tracker un jid cfg s).entries.countP (entryMatches u j)) ≤
      s.entries.countP (entryMatches u j) + 1 := by
  rcases collectJob_cases jobType now tracker un jid cfg s with
    hc | ⟨pr, eid, tbl, hc, -, -⟩
  · rw [hc]; omega
  · rw [hc]
    simp only [List.countP_append, List.countP_cons, List.countP_nil]
    split <;> omega

theorem collectJob_countP_tracked (jobType : JobType) (now : DateTime)
    (tracker : Tracker) (un jid : String) (cfg : JobConfig) (s : CollectState)
    (u j : String) (hjt : jobType = .daily ∨ jobType = .weekly)
    (hmem : (u, j, now.date) ∈ tracker) :
    ((collectJob jobType now tracker un jid cfg s).entries.countP (entryMatches u j)) =
      s.entries.countP (entryMatches u j) := by
  by_cases huj : un = u ∧ jid = j
  · obtain ⟨hu, hj2⟩ := huj
    subst hu; subst hj2
    rcases collectJob_cases jobType now tracker un jid cfg s with
      hc | ⟨pr, eid, tbl, hc, hguard, -⟩
    · rw [hc]
    · exact absurd ⟨hjt, decide_eq_true hmem⟩ hguard
  · exact collectJob_countP_other jobType now tracker un jid cfg s u j huj

/-- Fold version of a pointwise countP-preserving step. -/
theorem foldl_countP_eq {α : Type} (f : CollectState → α → CollectState)
    (m : QueueEntry → Bool) (l : List α)
    (h : ∀ a ∈ l, ∀ s, ((f s a).entries.countP m) = s.entries.countP m) :
    ∀ s, ((l.foldl f s).entries.countP m) = s.entries.countP m := by
  induction l with
  | nil => intro s; rfl
  | cons a t ih =>
    intro s
    rw [List.foldl_cons, ih (fun b hb s => h b (List.mem_cons_of_mem a hb) s),
      h a (List.mem_cons_self a t) s]

theorem jobsFold_countP_le (jobType : JobType) (now : DateTime)
    (tracker : Tracker) (un : String) (u j : String) :
    ∀ (jobs : List (String × JobConfig)) (s : CollectState),
      (jobs.map Prod.fst).Nodup →
      ((jobs.foldl (fun s p => collectJob jobType now tracker un p.1 p.2 s) s).entries.countP
        (entryMatches u j)) ≤ s.entries.countP (entryMatches u j) + 1 := by
  intro jobs
  induction jobs with
  | nil => intro s _; simp
  | cons p t ih =>
    intro s hnd
    obtain ⟨jid, cfg⟩ := p
    rw [List.foldl_cons]
    dsimp only
    simp only [List.map_cons] at hnd
    by_cases hj : jid = j
    · subst hj
      have htail : ∀ q ∈ t, q.1 ≠ jid := by
        intro q hq he
        have h1 : jid ∉ t.map Prod.fst := (List.nodup_cons.mp hnd).1
        have h2 : q.1 ∈ t.map Prod.fst := List.mem_map_of_mem Prod.fst hq
        rw [he] at h2
        exact h1 h2
      have heq := foldl_countP_eq
        (fun s p => collectJob jobType now tracker un p.1 p.2 s) (entryMatches u jid) t
        (fun q hq s => collectJob_countP_other jobType now tracker un q.1 q.2 s u jid
          (fun hc => htail q hq hc.2))
        (collectJob jobType now tracker un jid cfg s)
      rw [heq]
      exact collectJob_countP_le jobType now tracker un jid cfg s u jid
    · have hstep := collectJob_countP_other jobType now tracker un jid cfg s u j
        (fun hc => hj hc.2)
      have := ih (collectJob jobType now tracker un jid cfg s) (List.nodup_cons.mp hnd).2
      omega

theorem collectUserJobs_countP_le (jobType : JobType) (now : DateTime)
    (tracker : Tracker) (un : String) (us : UserSettings) (s : CollectState)
    (u j : String) (hnd : (us.jobs.map Prod.fst).Nodup) :
    ((collectUserJobs jobType now tracker un us s).entries.countP (entryMatches u j)) ≤
      s.entries.countP (entryMatches u j) + 1 := by
  unfold collectUserJobs
  split
  · omega
  · split
    · omega
    · exact jobsFold_countP_le jobType now tracker un u j us.jobs s hnd

theorem collectUserJobs_countP_other (jobType : JobType) (now : DateTime)
    (tracker : Tracker) (un : String) (us : UserSettings) (s : CollectState)
    (u j : String) (h : un ≠ u) :
    ((collectUserJobs jobType now tracker un us s).entries.countP (entryMatches u j)) =
      s.entries.countP (entryMatches u j) := by
  unfold collectUserJobs
  split
  · rfl
  · split
    · rfl
    · exact foldl_countP_eq _ _ us.jobs
        (fun q hq s => collectJob_countP_other jobType now tracker un q.1 q.2 s u j
          (fun hc => h hc.1)) s

theorem collectUserJobs_countP_tracked (jobType : JobType) (now : DateTime)
    (tracker : Tracker) (un : String) (us : UserSettings) (s : CollectState)
    (u j : String) (hjt : jobType = .daily ∨ jobType = .weekly)
    (hmem : (u, j, now.date) ∈ tracker) :
    ((collectUserJobs jobType now tracker un us s).entries.countP (entryMatches u j)) =
      s.entries.countP (entryMatches u j) := by
  unfold collectUserJobs
  split
  · rfl
  · split
    · rfl
    · exact foldl_countP_eq _ _ us.jobs
        (fun q hq s => collectJob_countP_tracked jobType now tracker un q.1 q.2 s u j
          hjt hmem) s

theorem collectDueJobs_countP_le_one (jobType : JobType) (now : DateTime)
    (tracker : Tracker) (users : List (String × UserSettings)) (tbl : Table)
    (u j : String) (hw : WellFormedUsers users) :
    ((collectDueJobs jobType now tracker users tbl).entries.countP (entryMatches u j)) ≤ 1 := by
  unfold collectDueJobs
  by_cases hu : ∃ p ∈ users, p.1 = u
  · obtain ⟨p, hp, hpu⟩ := hu
    obtain ⟨l1, l2, hsplit⟩ := List.append_of_mem hp
    subst hsplit
    have hnd := hw.1
    rw [List.map_append, List.map_cons] at hnd
    have hnodup := List.nodup_append.mp hnd
    have hl1 : ∀ q ∈ l1, q.1 ≠ u := by
      intro q hq he
      have h2 : u ∈ l1.map Prod.fst := by
        rw [← he]; exact List.mem_map_of_mem Prod.fst hq
      have h3 : u ∈ p.1 :: l2.map Prod.fst := by
        rw [hpu]; exact List.mem_cons_self _ _
      exact hnodup.2.2 h2 h3
    have hl2 : ∀ q ∈ l2, q.1 ≠ u := by
      intro q hq he
      have h1 : p.1 ∉ l2.map Prod.fst := (List.nodup_cons.mp hnodup.2.1).1
      have h2 : q.1 ∈ l2.map Prod.fst := List.mem_map_of_mem Prod.fst hq
      rw [he, ← hpu] at h2
      exact h1 h2
    rw [List.foldl_append, List.foldl_cons]
    have h1 : ((l1.foldl (fun s q => collectUserJobs jobType now tracker q.1 q.2 s)
        ⟨tbl, 0, []⟩).entries.countP (entryMatches u j)) = 0 := by
      rw [foldl_countP_eq _ _ l1
        (fun q hq s => collectUserJobs_countP_other jobType now tracker q.1 q.2 s u j
          (hl1 q hq))]
      rfl
    have h2 := collectUserJobs_countP_le jobType now tracker p.1 p.2
      (l1.foldl (fun s q => collectUserJobs jobType now tracker q.1 q.2 s) ⟨tbl, 0, []⟩)
      u j (hw.2 p hp)
    rw [foldl_countP_eq _ _ l2
      (fun q hq s => collectUserJobs_countP_other jobType now tracker q.1 q.2 s u j
        (hl2 q hq))]
    omega
  · push_neg at hu
    rw [foldl_countP_eq _ _ users
      (fun q hq s => collectUserJobs_countP_other jobType now tracker q.1 q.2 s u j
        (hu q hq))]
    simp

theorem collectDueJobs_countP_tracked (jobType : JobType) (now : DateTime)
    (tracker : Tracker) (users : List (String × UserSettings)) (tbl : Table)
    (u j : String) (hjt : jobType = .daily ∨ jobType = .weekly)
    (hmem : (u, j, now.date) ∈ tracker) :
    ((collectDueJobs jobType now tracker users tbl).entries.countP (entryMatches u j)) = 0 := by
  unfold collectDueJobs
  rw [foldl_countP_eq _ _ users
    (fun q hq s => collectUserJobs_countP_tracked jobType now tracker q.1 q.2 s u j
      hjt hmem)]
  rfl

theorem workerEvents_invoke_count_other (executors : SchedExecutors)
    (now : DateTime) (un jid : String) (cfg : JobConfig) (eid : ExecId)
    (u j : String) (d : Nat) (h : ¬(un = u ∧ jid = j ∧ now.date = d)) :
    (workerEvents executors now un jid cfg eid).countP (isInvokeFor u j d) = 0 := by
  unfold workerEvents
  cases hex : lookupExecutor jid executors with
  | none => simp [List.countP_append, List.countP_cons, isInvokeFor]
  | some info =>
      cases hrun : info.run (un, cfg) with
      | ok v => simp [hrun, List.countP_append, List.countP_cons, isInvokeFor, h]
      | error e => simp [hrun, List.countP_append, List.countP_cons, isInvokeFor, h]

theorem workerEvents_invoke_count_le_one (executors : SchedExecutors)
    (now : DateTime) (un jid : String) (cfg : JobConfig) (eid : ExecId)
    (u j : String) (d : Nat) :
    (workerEvents executors now un jid cfg eid).countP (isInvokeFor u j d) ≤ 1 := by
  by_cases hm : un = u ∧ jid = j ∧ now.date = d
  · obtain ⟨h1, h2, h3⟩ := hm
    subst h1
    subst h2
    subst h3
    unfold workerEvents
    cases hex : lookupExecutor jid executors with
    | none => simp [List.countP_append, List.countP_cons, isInvokeFor]
    | some info =>
        cases hrun : info.run (un, cfg) with
        | ok v => simp [hrun, List.countP_append, List.countP_cons, isInvokeFor]
        | error e => simp [hrun, List.countP_append, List.countP_cons, isInvokeFor]
  · rw [workerEvents_invoke_count_other executors now un jid cfg eid u j d hm]
    omega

theorem workerEvents_invoke_count_noexec (executors : SchedExecutors)
    (now : DateTime) (un jid : String) (cfg : JobConfig) (eid : ExecId)
    (u j : String) (d : Nat) (hex : lookupExecutor jid executors = none) :
    (workerEvents executors now un jid cfg eid).countP (isInvokeFor u j d) = 0 := by
  unfold workerEvents
  rw [hex]
  simp [List.countP_append, List.countP_cons, isInvokeFor]

/-- When the executor is registered, a daily/weekly worker records its
tracker key (before invoking, lines 528-530). -/
theorem executeSingleJob_tracker_self (executors : SchedExecutors)
    (jobType : JobType) (now : DateTime) (un jid : String) (cfg : JobConfig)
    (eid : ExecId) (st : MachState) (hjt : jobType = .daily ∨ jobType = .weekly)
    (info : ExecutorInfo (String × JobConfig) (Except String Unit))
    (hex : lookupExecutor jid executors = some info) :
    (un, jid, now.date) ∈
      (executeSingleJob executors jobType now un jid cfg eid st).tracker := by
  rw [executeSingleJob_tracker, hex]
  simp only [if_pos hjt]
  exact List.mem_cons_self _ _

theorem executeSingleJob_tracker_mono (executors : SchedExecutors)
    (jobType : JobType) (now : DateTime) (un jid : String) (cfg : JobConfig)
    (eid : ExecId) (st : MachState) (x : TrackerKey) (hx : x ∈ st.tracker) :
    x ∈ (executeSingleJob executors jobType now un jid cfg eid st).tracker := by
  rw [executeSingleJob_tracker]
  cases lookupExecutor jid executors with
  | none => exact hx
  | some info =>
      by_cases hdw : jobType = .daily ∨ jobType = .weekly
      · rw [if_pos hdw]
        exact List.mem_cons_of_mem _ hx
      · rw [if_neg hdw]
        exact hx

theorem processSubmitted_tracker_mono (executors : SchedExecutors)
    (jobType : JobType) (now : DateTime) :
    ∀ (subs : List QueueEntry) (st : MachState) (x : TrackerKey),
      x ∈ st.tracker → x ∈ (processSubmitted executors jobType now subs st).tracker := by
  intro subs
  induction subs with
  | nil => intro st x hx; exact hx
  | cons e t ih =>
    intro st x hx
    exact ih _ x (executeSingleJob_tracker_mono executors jobType now
      e.username e.jobId e.cfg e.execId st x hx)

theorem processSubmitted_invoke_other_date (executors : SchedExecutors)
    (jobType : JobType) (now : DateTime) (u j : String) (d : Nat)
    (hd : d ≠ now.date) :
    ∀ (subs : List QueueEntry) (st : MachState),
      invokeCount u j d (processSubmitted executors jobType now subs st).events =
        invokeCount u j d st.events := by
  intro subs
  induction subs with
  | nil => intro st; rfl
  | cons e t ih =>
    intro st
    have hstep : processSubmitted executors jobType now (e :: t) st =
        processSubmitted executors jobType now t
          (executeSingleJob executors jobType now e.username e.jobId e.cfg e.execId st) := rfl
    rw [hstep, ih]
    unfold invokeCount
    rw [executeSingleJob_events, List.countP_append,
      workerEvents_invoke_count_other executors now e.username e.jobId e.cfg e.execId u j d
        (fun hc => hd hc.2.2.symm)]
    omega

theorem processSubmitted_invoke_le (executors : SchedExecutors)
    (jobType : JobType) (now : DateTime) (u j : String) :
    ∀ (subs : List QueueEntry) (st : MachState),
      invokeCount u j now.date (processSubmitted executors jobType now subs st).events ≤
        invokeCount u j now.date st.events + subs.countP (entryMatches u j) := by
  intro subs
  induction subs with
  | nil => intro st; simp [processSubmitted]
  | cons e t ih =>
    intro st
    have hstep : processSubmitted executors jobType now (e :: t) st =
        processSubmitted executors jobType now t
          (executeSingleJob executors jobType now e.username e.jobId e.cfg e.execId st) := rfl
    rw [hstep, List.countP_cons]
    have h2 := ih (executeSingleJob executors jobType now e.username e.jobId e.cfg e.execId st)
    by_cases hm : e.username = u ∧ e.jobId = j
    · have h1 : invokeCount u j now.date
          (executeSingleJob executors jobType now e.username e.jobId e.cfg e.execId st).events ≤
          invokeCount u j now.date st.events + 1 := by
        unfold invokeCount
        rw [executeSingleJob_events, List.countP_append]
        have := workerEvents_invoke_count_le_one executors now e.username e.jobId e.cfg
          e.execId u j now.date
        omega
      have h3 : (if entryMatches u j e = true then 1 else 0) = 1 := by
        simp [entryMatches, hm]
      omega
    · have h1 : invokeCount u j now.date
          (executeSingleJob executors jobType now e.username e.jobId e.cfg e.execId st).events =
          invokeCount u j now.date st.events := by
        unfold invokeCount
        rw [executeSingleJob_events, List.countP_append,
          workerEvents_invoke_count_other executors now e.username e.jobId e.cfg e.execId
            u j now.date (fun hc => hm ⟨hc.1, hc.2.1⟩)]
        omega
      have h3 : (if entryMatches u j e = true then 1 else 0) = 0 := by
        simp [entryMatches, hm]
      omega

theorem processSubmitted_invoke_untracked (executors : SchedExecutors)
    (jobType : JobType) (now : DateTime) (u j : String)
    (hjt : jobType = .daily ∨ jobType = .weekly) :
    ∀ (subs : List QueueEntry) (st : MachState),
      (u, j, now.date) ∉ (processSubmitted executors jobType now subs st).tracker →
      invokeCount u j now.date (processSubmitted executors jobType now subs st).events =
        invokeCount u j now.date st.events := by
  intro subs
  induction subs with
  | nil => intro st _; rfl
  | cons e t ih =>
    intro st hnot
    have hstep : processSubmitted executors jobType now (e :: t) st =
        processSubmitted executors jobType now t
          (executeSingleJob executors jobType now e.username e.jobId e.cfg e.execId st) := rfl
    rw [hstep] at hnot ⊢
    have hnot2 : (u, j, now.date) ∉
        (executeSingleJob executors jobType now e.username e.jobId e.cfg e.execId st).tracker :=
      fun hmem => hnot (processSubmitted_tracker_mono executors jobType now t _ _ hmem)
    rw [ih _ hnot]
    unfold invokeCount
    rw [executeSingleJob_events, List.countP_append]
    have hzero : (workerEvents executors now e.username e.jobId e.cfg e.execId).countP
        (isInvokeFor u j now.date) = 0 := by
      by_cases hm : e.username = u ∧ e.jobId = j
      · cases hex : lookupExecutor e.jobId executors with
        | none =>
            exact workerEvents_invoke_count_noexec executors now e.username e.jobId e.cfg
              e.execId u j now.date hex
        | some info =>
            exfalso
            apply hnot2
            have hself := executeSingleJob_tracker_self executors jobType now e.username
              e.jobId e.cfg e.execId st hjt info hex
            rw [← hm.1, ← hm.2]
            exact hself
      · exact workerEvents_invoke_count_other executors now e.username e.jobId e.cfg
          e.execId u j now.date (fun hc => hm ⟨hc.1, hc.2.1⟩)
    omega

/-- The de-duplication invariant: every (user, job, date) triple has been
invoked at most once, and an invoked triple is recorded in the in-memory
tracker. -/
def DedupInv (st : MachState) : Prop :=
  ∀ u j d, invokeCount u j d st.events ≤ 1 ∧
    (1 ≤ invokeCount u j d st.events → (u, j, d) ∈ st.tracker)

theorem runJobsPass_dedup (executors : SchedExecutors) (jobType : JobType)
    (users : List (String × UserSettings)) (now : DateTime) (st : MachState)
    (hjt : jobType = .daily ∨ jobType = .weekly) (hw : WellFormedUsers users)
    (hinv : DedupInv st) :
    DedupInv (runJobsPass executors jobType users now st) := by
  intro u j d
  have hpass : runJobsPass executors jobType users now st =
      processSubmitted executors jobType now
        (drainQueue (collectDueJobs jobType now st.tracker users st.tbl).entries)
        { st with tbl := (collectDueJobs jobType now st.tracker users st.tbl).tbl } := rfl
  rw [hpass]
  have hperm : (drainQueue (collectDueJobs jobType now st.tracker users st.tbl).entries).Perm
      (collectDueJobs jobType now st.tracker users st.tbl).entries :=
    List.perm_insertionSort entryR _
  have hse : ({ st with tbl := (collectDueJobs jobType now st.tracker users st.tbl).tbl } :
      MachState).events = st.events := rfl
  by_cases hd : d = now.date
  · rw [hd]
    by_cases hmem : (u, j, now.date) ∈ st.tracker
    · have hc0 := collectDueJobs_countP_tracked jobType now st.tracker users st.tbl u j
        hjt hmem
      have hle := processSubmitted_invoke_le executors jobType now u j
        (drainQueue (collectDueJobs jobType now st.tracker users st.tbl).entries)
        { st with tbl := (collectDueJobs jobType now st.tracker users st.tbl).tbl }
      rw [hperm.countP_eq, hc0, hse] at hle
      have hold := (hinv u j now.date).1
      exact ⟨by omega,
        fun hone => processSubmitted_tracker_mono executors jobType now _ _ _ hmem⟩
    · have hold : invokeCount u j now.date st.events = 0 := by
        rcases Nat.eq_zero_or_pos (invokeCount u j now.date st.events) with h | h
        · exact h
        · exact absurd ((hinv u j now.date).2 h) hmem
      have hc1 := collectDueJobs_countP_le_one jobType now st.tracker users st.tbl u j hw
      have hle := processSubmitted_invoke_le executors jobType now u j
        (drainQueue (collectDueJobs jobType now st.tracker users st.tbl).entries)
        { st with tbl := (collectDueJobs jobType now st.tracker users st.tbl).tbl }
      rw [hperm.countP_eq, hse] at hle
      refine ⟨by omega, fun hone => ?_⟩
      by_cases htr : (u, j, now.date) ∈ (processSubmitted executors jobType now
          (drainQueue (collectDueJobs jobType now st.tracker users st.tbl).entries)
          { st with tbl := (collectDueJobs jobType now st.tracker users st.tbl).tbl }).tracker
      · exact htr
      · have hz := processSubmitted_invoke_untracked executors jobType now u j hjt
          (drainQueue (collectDueJobs jobType now st.tracker users st.tbl).entries)
          { st with tbl := (collectDueJobs jobType now st.tracker users st.tbl).tbl } htr
        rw [hse] at hz
        omega
  · have heq := processSubmitted_invoke_other_date executors jobType now u j d hd
      (drainQueue (collectDueJobs jobType now st.tracker users st.tbl).entries)
      { st with tbl := (collectDueJobs jobType now st.tracker users st.tbl).tbl }
    rw [hse] at heq
    have hold := hinv u j d
    rw [heq]
    exact ⟨hold.1, fun hone =>
      processSubmitted_tracker_mono executors jobType now _ _ _ (hold.2 hone)⟩

/-- C1: in the sequential tick model, for every user and every daily or
weekly job, at most one executor invocation of that job occurs per
(username, job_id, calendar date) across any sequence of scheduling ticks:
run_jobs consults the in-memory tracker (keyed by username, job id and date
string) before queuing and skips recorded jobs, and a worker records the
tracker key before invoking, so when both grace-window ticks mark a daily
job due the second attempt is skipped. -/
theorem daily_weekly_dedup (executors : SchedExecutors) (jobType : JobType)
    (hjt : jobType = .daily ∨ jobType = .weekly)
    (users : List (String × UserSettings)) (hw : WellFormedUsers users)
    (ticks : List DateTime) (st₀ : MachState) (h0 : st₀.events = []) :
    ∀ u j d,
      invokeCount u j d (runTicks executors jobType users ticks st₀).events ≤ 1 := by
  have hinv0 : DedupInv st₀ := by
    intro u j d
    rw [invokeCount, h0]
    exact ⟨by simp, fun h => absurd h (by simp)⟩
  have hfin := foldl_preserve DedupInv
    (fun s t => runJobsPass executors jobType users t s)
    (fun s t hs => runJobsPass_dedup executors jobType users t s hjt hw hs)
    ticks st₀ hinv0
  intro u j d
  exact (hfin u j d).1

/-- Users for the C1 witness: one enabled daily job at 02:00. -/
def c1Users : List (String × UserSettings) :=
  [("alice", ⟨"player", true, [("auto_challenge", ⟨.daily, true, 2, 0, 0⟩)]⟩)]

/-- Executor table for the C1 witness. -/
def c1Executors : SchedExecutors :=
  [("auto_challenge", ⟨fun _ => Except.ok (), "challenge"⟩)]

/-- Concrete instantiation of the C1 theorem: ticks at 02:00 and 02:01 both
fall inside the daily job's grace window, yet exactly one executor
invocation is recorded — the second tick is skipped via the in-memory
tracker — and the theorem's at-most-once bound holds for this run. -/
theorem daily_weekly_dedup_witness :
    WellFormedUsers c1Users ∧
    invokeCount "alice" "auto_challenge" 10
      (runTicks c1Executors .daily c1Users [⟨10, 2, 0⟩, ⟨10, 2, 1⟩]
        ⟨[], [], [], []⟩).events = 1 ∧
    invokeCount "alice" "auto_challenge" 10
      (runTicks c1Executors .daily c1Users [⟨10, 2, 0⟩, ⟨10, 2, 1⟩]
        ⟨[], [], [], []⟩).events ≤ 1 := by
  have hw : WellFormedUsers c1Users := by
    constructor
    · decide
    · decide
  refine ⟨hw, by decide, ?_⟩
  exact daily_weekly_dedup c1Executors .daily (Or.inl rfl) c1Users hw
    [⟨10, 2, 0⟩, ⟨10, 2, 1⟩] ⟨[], [], [], []⟩ rfl "alice" "auto_challenge" 10

/-! Missed-job recovery at startup (get_missed_jobs of
job_execution_tracker.py and main.py lifespan lines 122-185). -/

/-- Mirror of get_missed_jobs: records with status pending or running whose
scheduled_time is strictly before now, in table enumeration order. -/
def get_missed_jobs (now : DateTime) (tbl : Table) : List (TblKey × JobRecord) :=
  tbl.filter (fun p =>
    (p.2.status == "pending" || p.2.status == "running") &&
      p.2.scheduledTime.isBefore now)

/-- The empty job_config dict passed when re-running a missed job (every
field the executors read falls back to its default). -/
def emptyJobConfig : JobConfig := ⟨.daily, false, 0, 0, 0⟩

/-- The stuck check of the recovery loop (main.py lines 138-153): a running
record with a recorded start time more than 2 hours old
(total_seconds / 3600 > 2, i.e. strictly more than 120 minutes). -/
def isStuck (now : DateTime) (entity : JobRecord) : Bool :=
  entity.status == "running" &&
    (match entity.executionStartTime with
     | some stt => decide (((now.toMinutes : Int) - stt.toMinutes) > 120)
     | none => false)

/-- One iteration of the missed-job recovery loop (main.py lines 131-181),
deciding on the snapshot entity returned by get_missed_jobs: a stuck record
is marked failed and not re-executed (the source's message interpolates the
age; a fixed text stands in for it); otherwise the record is marked running
and the executor, when registered, is invoked once with (username, empty
job_config) — recorded in the ghost log — after which the record is marked
completed on normal return or failed with the exception text on raise; an
unregistered executor marks the record failed without invoking. -/
def processMissedEntity (executors : SchedExecutors) (now : DateTime)
    (p : TblKey × JobRecord) (tbl : Table) (log : List TblKey) :
    Table × List TblKey :=
  if isStuck now p.2 then
    (update_job_execution_status p.1.1 p.1.2 "failed"
      (some "Job was running too long, likely stuck") now tbl, log)
  else
    match lookupExecutor p.2.jobId executors with
    | some info =>
        match info.run (p.1.1, emptyJobConfig) with
        | .ok _ =>
            (update_job_execution_status p.1.1 p.1.2 "completed" none now
              (update_job_execution_status p.1.1 p.1.2 "running" none now tbl),
             log ++ [(p.1.1, p.1.2)])
        | .error e =>
            (update_job_execution_status p.1.1 p.1.2 "failed" (some e) now
              (update_job_execution_status p.1.1 p.1.2 "running" none now tbl),
             log ++ [(p.1.1, p.1.2)])
    | none =>
        (update_job_execution_status p.1.1 p.1.2 "failed"
          (some ("Executor not found for job " ++ p.2.jobId)) now
          (update_job_execution_status p.1.1 p.1.2 "running" none now tbl),
         log)

/-- The whole startup recovery: materialize the missed list once, then
process each snapshot entity in order against the live table. -/
def executeMissedJobs (executors : SchedExecutors) (now : DateTime)
    (tbl : Table) : Table × List TblKey :=
  (get_missed_jobs now tbl).foldl
    (fun acc p => processMissedEntity executors now p acc.1 acc.2) (tbl, [])

theorem tblLookup_some_mem (k : TblKey) (r : JobRecord) :
    ∀ t : Table, tblLookup k t = some r → (k, r) ∈ t := by
  intro t
  induction t with
  | nil => intro h; cases h
  | cons p t ih =>
    obtain ⟨k', r'⟩ := p
    intro h
    by_cases hk : k' = k
    · subst hk
      simp only [tblLookup, if_pos rfl] at h
      cases h
      exact List.mem_cons_self _ _
    · simp only [tblLookup, if_neg hk] at h
      exact List.mem_cons_of_mem _ (ih h)

theorem processMissedEntity_stuck (executors : SchedExecutors) (now : DateTime)
    (p : TblKey × JobRecord) (tbl : Table) (log : List TblKey)
    (h : isStuck now p.2 = true) :
    processMissedEntity executors now p tbl log =
      (update_job_execution_status p.1.1 p.1.2 "failed"
        (some "Job was running too long, likely stuck") now tbl, log) := by
  simp [processMissedEntity, h]

theorem processMissedEntity_noexec (executors : SchedExecutors) (now : DateTime)
    (p : TblKey × JobRecord) (tbl : Table) (log : List TblKey)
    (h : isStuck now p.2 = false)
    (hex : lookupExecutor p.2.jobId executors = none) :
    processMissedEntity executors now p tbl log =
      (update_job_execution_status p.1.1 p.1.2 "failed"
        (some ("Executor not found for job " ++ p.2.jobId)) now
        (update_job_execution_status p.1.1 p.1.2 "running" none now tbl), log) := by
  simp [processMissedEntity, h, hex]

theorem processMissedEntity_run_ok (executors : SchedExecutors) (now : DateTime)
    (p : TblKey × JobRecord) (tbl : Table) (log : List TblKey)
    (h : isStuck now p.2 = false)
    (info : ExecutorInfo (String × JobConfig) (Except String Unit))
    (hex : lookupExecutor p.2.jobId executors = some info) (v : Unit)
    (hrun : info.run (p.1.1, emptyJobConfig) = Except.ok v) :
    processMissedEntity executors now p tbl log =
      (update_job_execution_status p.1.1 p.1.2 "completed" none now
        (update_job_execution_status p.1.1 p.1.2 "running" none now tbl),
       log ++ [(p.1.1, p.1.2)]) := by
  simp [processMissedEntity, h, hex, hrun]

theorem processMissedEntity_run_error (executors : SchedExecutors) (now : DateTime)
    (p : TblKey × JobRecord) (tbl : Table) (log : List TblKey)
    (h : isStuck now p.2 = false)
    (info : ExecutorInfo (String × JobConfig) (Except String Unit))
    (hex : lookupExecutor p.2.jobId executors = some info) (e : String)
    (hrun : info.run (p.1.1, emptyJobConfig) = Except.error e) :
    processMissedEntity executors now p tbl log =
      (update_job_execution_status p.1.1 p.1.2 "failed" (some e) now
        (update_job_execution_status p.1.1 p.1.2 "running" none now tbl),
       log ++ [(p.1.1, p.1.2)]) := by
  simp [processMissedEntity, h, hex, hrun]

theorem processMissedEntity_frame (executors : SchedExecutors) (now : DateTime)
    (p : TblKey × JobRecord) (tbl : Table) (log : List TblKey) (k : TblKey)
    (hk : p.1 ≠ k) :
    tblLookup k (processMissedEntity executors now p tbl log).1 = tblLookup k tbl ∧
    (processMissedEntity executors now p tbl log).2.countP (fun q => decide (q = k)) =
      log.countP (fun q => decide (q = k)) := by
  have hk2 : k ≠ (p.1.1, p.1.2) := fun he => hk he.symm
  have hcnt : (log ++ [(p.1.1, p.1.2)]).countP (fun q => decide (q = k)) =
      log.countP (fun q => decide (q = k)) := by
    rw [List.countP_append]
    simp [Prod.mk.eta, hk]
  by_cases hstuck : isStuck now p.2 = true
  · rw [processMissedEntity_stuck executors now p tbl log hstuck]
    exact ⟨update_status_lookup_ne _ _ _ _ _ _ _ hk2, rfl⟩
  · have hst : isStuck now p.2 = false := by
      simpa using hstuck
    cases hex : lookupExecutor p.2.jobId executors with
    | none =>
        rw [processMissedEntity_noexec executors now p tbl log hst hex]
        refine ⟨?_, rfl⟩
        rw [update_status_lookup_ne _ _ _ _ _ _ _ hk2,
          update_status_lookup_ne _ _ _ _ _ _ _ hk2]
    | some info =>
        cases hrun : info.run (p.1.1, emptyJobConfig) with
        | ok v =>
            rw [processMissedEntity_run_ok executors now p tbl log hst info hex v hrun]
            refine ⟨?_, hcnt⟩
            rw [update_status_lookup_ne _ _ _ _ _ _ _ hk2,
              update_status_lookup_ne _ _ _ _ _ _ _ hk2]
        | error e =>
            rw [processMissedEntity_run_error executors now p tbl log hst info hex e hrun]
            refine ⟨?_, hcnt⟩
            rw [update_status_lookup_ne _ _ _ _ _ _ _ hk2,
              update_status_lookup_ne _ _ _ _ _ _ _ hk2]

theorem missedFold_lookup (executors : SchedExecutors) (now : DateTime)
    (k : TblKey) :
    ∀ (es : List (TblKey × JobRecord)), (∀ p ∈ es, p.1 ≠ k) →
      ∀ acc : Table × List TblKey,
        tblLookup k (es.foldl
          (fun acc p => processMissedEntity executors now p acc.1 acc.2) acc).1 =
          tblLookup k acc.1 := by
  intro es
  induction es with
  | nil => intro _ acc; rfl
  | cons p t ih =>
    intro hes acc
    rw [List.foldl_cons]
    rw [ih (fun q hq => hes q (List.mem_cons_of_mem p hq))
      (processMissedEntity executors now p acc.1 acc.2)]
    exact (processMissedEntity_frame executors now p acc.1 acc.2 k
      (hes p (List.mem_cons_self p t))).1

theorem missedFold_countP (executors : SchedExecutors) (now : DateTime)
    (k : TblKey) :
    ∀ (es : List (TblKey × JobRecord)), (∀ p ∈ es, p.1 ≠ k) →
      ∀ acc : Table × List TblKey,
        (es.foldl (fun acc p => processMissedEntity executors now p acc.1 acc.2)
          acc).2.countP (fun q => decide (q = k)) =
          acc.2.countP (fun q => decide (q = k)) := by
  intro es
  induction es with
  | nil => intro _ acc; rfl
  | cons p t ih =>
    intro hes acc
    rw [List.foldl_cons]
    rw [ih (fun q hq => hes q (List.mem_cons_of_mem p hq))
      (processMissedEntity executors now p acc.1 acc.2)]
    exact (processMissedEntity_frame executors now p acc.1 acc.2 k
      (hes p (List.mem_cons_self p t))).2

/-- C4: on restart, for every persisted record with status pending or
running whose scheduled time is in the past and whose executor is
registered: if the record is running with a recorded start more than 2 hours
old it is marked failed and the job is not re-executed (no invocation is
logged); otherwise the job is executed exactly once synchronously — exactly
one invocation is logged for its key — and its record transitions through
running to completed on normal return, or to failed with the exception text
on raise. -/
theorem missed_job_recovery_spec (executors : SchedExecutors) (now : DateTime)
    (tbl : Table) (hnd : (tbl.map Prod.fst).Nodup)
    (u : String) (eid : ExecId) (r : JobRecord)
    (hr : tblLookup (u, eid) tbl = some r)
    (hst : r.status = "pending" ∨ r.status = "running")
    (hsched : r.scheduledTime.isBefore now = true)
    (info : ExecutorInfo (String × JobConfig) (Except String Unit))
    (hex : lookupExecutor r.jobId executors = some info) :
    (isStuck now r = true →
      (executeMissedJobs executors now tbl).2.countP
        (fun q => decide (q = (u, eid))) = 0 ∧
      tblLookup (u, eid) (executeMissedJobs executors now tbl).1 =
        some (updatedRecord r "failed"
          (some "Job was running too long, likely stuck") now)) ∧
    (isStuck now r = false →
      (executeMissedJobs executors now tbl).2.countP
        (fun q => decide (q = (u, eid))) = 1 ∧
      (∀ v, info.run (u, emptyJobConfig) = Except.ok v →
        tblLookup (u, eid) (executeMissedJobs executors now tbl).1 =
          some (updatedRecord (updatedRecord r "running" none now)
            "completed" none now)) ∧
      (∀ e, info.run (u, emptyJobConfig) = Except.error e →
        tblLookup (u, eid) (executeMissedJobs executors now tbl).1 =
          some (updatedRecord (updatedRecord r "running" none now)
            "failed" (some e) now))) := by
  have hmem : ((u, eid), r) ∈ tbl := tblLookup_some_mem (u, eid) r tbl hr
  have hcond : ((r.status == "pending" || r.status == "running") &&
      r.scheduledTime.isBefore now) = true := by
    rcases hst with h | h <;> simp [h, hsched]
  have hmiss : ((u, eid), r) ∈ get_missed_jobs now tbl :=
    List.mem_filter.mpr ⟨hmem, hcond⟩
  have hndm : ((get_missed_jobs now tbl).map Prod.fst).Nodup := by
    have hsub : List.Sublist ((get_missed_jobs now tbl).map Prod.fst)
        (tbl.map Prod.fst) :=
      (List.filter_sublist tbl).map Prod.fst
    exact hnd.sublist hsub
  obtain ⟨l1, l2, hsplit⟩ := List.append_of_mem hmiss
  have hndm2 := hsplit ▸ hndm
  rw [List.map_append, List.map_cons] at hndm2
  have hnodup := List.nodup_append.mp hndm2
  have hl1 : ∀ q ∈ l1, q.1 ≠ (u, eid) := by
    intro q hq he
    have h2 : ((u, eid) : TblKey) ∈ l1.map Prod.fst := by
      rw [← he]
      exact List.mem_map_of_mem Prod.fst hq
    have h3 : ((u, eid) : TblKey) ∈ ((u, eid), r).1 :: l2.map Prod.fst :=
      List.mem_cons_self _ _
    exact hnodup.2.2 h2 h3
  have hl2 : ∀ q ∈ l2, q.1 ≠ (u, eid) := by
    intro q hq he
    have h1 : (((u, eid), r).1 : TblKey) ∉ l2.map Prod.fst :=
      (List.nodup_cons.mp hnodup.2.1).1
    have h2 : q.1 ∈ l2.map Prod.fst := List.mem_map_of_mem Prod.fst hq
    rw [he] at h2
    exact h1 h2
  have hfold : executeMissedJobs executors now tbl =
      l2.foldl (fun acc p => processMissedEntity executors now p acc.1 acc.2)
        (processMissedEntity executors now ((u, eid), r)
          (l1.foldl (fun acc p => processMissedEntity executors now p acc.1 acc.2)
            (tbl, [])).1
          (l1.foldl (fun acc p => processMissedEntity executors now p acc.1 acc.2)
            (tbl, [])).2) := by
    unfold executeMissedJobs
    rw [hsplit, List.foldl_append, List.foldl_cons]
  have hlook1 : tblLookup (u, eid)
      (l1.foldl (fun acc p => processMissedEntity executors now p acc.1 acc.2)
        (tbl, [])).1 = some r := by
    rw [missedFold_lookup executors now (u, eid) l1 hl1 (tbl, [])]
    exact hr
  have hcnt1 : (l1.foldl (fun acc p => processMissedEntity executors now p acc.1 acc.2)
      (tbl, [])).2.countP (fun q => decide (q = ((u, eid) : TblKey))) = 0 := by
    rw [missedFold_countP executors now (u, eid) l1 hl1 (tbl, [])]
    rfl
  constructor
  · intro hstuck
    rw [hfold, processMissedEntity_stuck executors now ((u, eid), r) _ _ hstuck]
    constructor
    · rw [missedFold_countP executors now (u, eid) l2 hl2 _]
      exact hcnt1
    · rw [missedFold_lookup executors now (u, eid) l2 hl2 _]
      exact update_status_lookup_self _ _ _ _ _ _ r hlook1
  · intro hnstuck
    have hlookrun : tblLookup (u, eid)
        (update_job_execution_status u eid "running" none now
          (l1.foldl (fun acc p => processMissedEntity executors now p acc.1 acc.2)
            (tbl, [])).1) = some (updatedRecord r "running" none now) :=
      update_status_lookup_self _ _ _ _ _ _ r hlook1
    cases hrun : info.run (u, emptyJobConfig) with
    | ok v =>
        rw [hfold,
          processMissedEntity_run_ok executors now ((u, eid), r) _ _ hnstuck info hex v hrun]
        refine ⟨?_, ?_, ?_⟩
        · rw [missedFold_countP executors now (u, eid) l2 hl2 _]
          show ((l1.foldl (fun acc p => processMissedEntity executors now p acc.1 acc.2)
              (tbl, [])).2 ++ [((u, eid) : TblKey)]).countP
              (fun q => decide (q = ((u, eid) : TblKey))) = 1
          rw [List.countP_append, hcnt1]
          simp
        · intro v2 _
          rw [missedFold_lookup executors now (u, eid) l2 hl2 _]
          exact update_status_lookup_self _ _ _ _ _ _ _ hlookrun
        · intro e he
          simp at he
    | error e =>
        rw [hfold,
          processMissedEntity_run_error executors now ((u, eid), r) _ _ hnstuck info hex e hrun]
        refine ⟨?_, ?_, ?_⟩
        · rw [missedFold_countP executors now (u, eid) l2 hl2 _]
          show ((l1.foldl (fun acc p => processMissedEntity executors now p acc.1 acc.2)
              (tbl, [])).2 ++ [((u, eid) : TblKey)]).countP
              (fun q => decide (q = ((u, eid) : TblKey))) = 1
          rw [List.countP_append, hcnt1]
          simp
        · intro v2 hv
          simp at hv
        · intro e2 he2
          injection he2 with hee
          subst hee
          rw [missedFold_lookup executors now (u, eid) l2 hl2 _]
          exact update_status_lookup_self _ _ _ _ _ _ _ hlookrun

/-- Executor table for the C4 witness. -/
def c4Executors : SchedExecutors :=
  [("jobA", ⟨fun _ => Except.ok (), "A"⟩), ("jobB", ⟨fun _ => Except.ok (), "B"⟩)]

/-- A running record stuck since 03:00 (3 hours before the witness's now). -/
def c4RecA : JobRecord :=
  ⟨"jobA", .daily, ⟨9, 3, 0⟩, some ⟨9, 3, 0⟩, none, "running", none⟩

/-- A pending record from 04:00, past due at the witness's now. -/
def c4RecB : JobRecord :=
  ⟨"jobB", .daily, ⟨9, 4, 0⟩, none, none, "pending", none⟩

/-- The persisted table the C4 witness restarts from. -/
def c4Tbl : Table :=
  [(("alice", ⟨"jobA", ⟨9, 3, 0⟩⟩), c4RecA),
   (("bob", ⟨"jobB", ⟨9, 4, 0⟩⟩), c4RecB)]

/-- Restart time for the C4 witness: 06:00 of day 9. -/
def c4Now : DateTime := ⟨9, 6, 0⟩

/-- Concrete instantiation of the C4 theorem: the 3-hour-old running record
is marked failed with no re-execution, while the past-due pending record is
executed exactly once and transitions running → completed. -/
theorem missed_job_recovery_spec_witness :
    (executeMissedJobs c4Executors c4Now c4Tbl).2.countP
      (fun q => decide (q = (("alice", ⟨"jobA", ⟨9, 3, 0⟩⟩) : TblKey))) = 0 ∧
    tblLookup ("alice", ⟨"jobA", ⟨9, 3, 0⟩⟩)
      (executeMissedJobs c4Executors c4Now c4Tbl).1 =
      some (updatedRecord c4RecA "failed"
        (some "Job was running too long, likely stuck") c4Now) ∧
    (executeMissedJobs c4Executors c4Now c4Tbl).2.countP
      (fun q => decide (q = (("bob", ⟨"jobB", ⟨9, 4, 0⟩⟩) : TblKey))) = 1 ∧
    tblLookup ("bob", ⟨"jobB", ⟨9, 4, 0⟩⟩)
      (executeMissedJobs c4Executors c4Now c4Tbl).1 =
      some (updatedRecord (updatedRecord c4RecB "running" none c4Now)
        "completed" none c4Now) := by
  have hA := missed_job_recovery_spec c4Executors c4Now c4Tbl (by decide)
    "alice" ⟨"jobA", ⟨9, 3, 0⟩⟩ c4RecA rfl (Or.inr rfl) (by decide)
    ⟨fun _ => Except.ok (), "A"⟩ rfl
  have hB := missed_job_recovery_spec c4Executors c4Now c4Tbl (by decide)
    "bob" ⟨"jobB", ⟨9, 4, 0⟩⟩ c4RecB rfl (Or.inl rfl) (by decide)
    ⟨fun _ => Except.ok (), "B"⟩ rfl
  obtain ⟨hA1, hA2⟩ := hA.1 (by decide)
  obtain ⟨hB1, hB2, -⟩ := hB.2 (by decide)
  exact ⟨hA1, hA2, hB1, hB2 () rfl⟩

/-! Day-start initialization of execution records
(cleanup_old_job_records and initialize_daily_job_records of
job_execution_tracker.py, run from main.py lines 112-117 and the daily
00:00 schedule).  The function reads only user settings and the executions
table; it has no access to the executor registry, so no executor can be
invoked while it runs. -/

/-- Mirror of cleanup_old_job_records: delete every record whose
scheduled_time is strictly before the cutoff. -/
def cleanup_old_job_records (before : DateTime) (tbl : Table) : Table :=
  tbl.filter (fun p => !(p.2.scheduledTime.isBefore before))

/-- The record written for a daily/weekly slot already in the past:
completed outright (assumed successful), with both execution times equal to
the scheduled time. -/
def assumedCompletedRecord (jobId : String) (jt : JobType) (sched : DateTime) :
    JobRecord :=
  ⟨jobId, jt, sched, some sched, some sched, "completed", none⟩

/-- The record written for a slot still to come. -/
def pendingRecord (jobId : String) (jt : JobType) (sched : DateTime) : JobRecord :=
  ⟨jobId, jt, sched, none, none, "pending", none⟩

/-- Next hourly slot computed at initialization (lines 582-615): this hour's
configured minute when still ahead of now, otherwise the next hour (next day
at hour 0 past 23), built on the target date as in the source. -/
def nextHourlyInitTime (cfg : JobConfig) (now targetDate : DateTime) : DateTime :=
  if now.minute ≥ cfg.minute then
    if now.hour + 1 ≥ 24 then ⟨targetDate.date + 1, 0, cfg.minute⟩
    else ⟨targetDate.date, now.hour + 1, cfg.minute⟩
  else ⟨targetDate.date, now.hour, cfg.minute⟩

/-- Mirror of the per-job body of initialize_daily_job_records (lines
528-695): an enabled daily job gets today's record at its configured time,
an hourly job only its next pending slot, a weekly job today's record only
when today is its configured day; a slot already strictly before now is
written directly as completed with start and end equal to the scheduled
time, a remaining slot as pending; an existing record is left untouched. -/
def initJobRecord (now targetDate : DateTime) (username jobId : String)
    (cfg : JobConfig) (tbl : Table) : Table :=
  if cfg.enabled = false then tbl
  else
    match cfg.type with
    | .daily =>
        match tblLookup (username, ⟨jobId, ⟨targetDate.date, cfg.hour, cfg.minute⟩⟩) tbl with
        | some _ => tbl
        | none =>
            if DateTime.isBefore ⟨targetDate.date, cfg.hour, cfg.minute⟩ now = true then
              tblUpsert (username, ⟨jobId, ⟨targetDate.date, cfg.hour, cfg.minute⟩⟩)
                (assumedCompletedRecord jobId .daily ⟨targetDate.date, cfg.hour, cfg.minute⟩) tbl
            else
              tblUpsert (username, ⟨jobId, ⟨targetDate.date, cfg.hour, cfg.minute⟩⟩)
                (pendingRecord jobId .daily ⟨targetDate.date, cfg.hour, cfg.minute⟩) tbl
    | .hourly =>
        match tblLookup (username, ⟨jobId, nextHourlyInitTime cfg now targetDate⟩) tbl with
        | some _ => tbl
        | none =>
            tblUpsert (username, ⟨jobId, nextHourlyInitTime cfg now targetDate⟩)
              (pendingRecord jobId .hourly (nextHourlyInitTime cfg now targetDate)) tbl
    | .weekly =>
        if targetDate.weekday = cfg.dayOfWeek then
          match tblLookup (username, ⟨jobId, ⟨targetDate.date, cfg.hour, cfg.minute⟩⟩) tbl with
          | some _ => tbl
          | none =>
              if DateTime.isBefore ⟨targetDate.date, cfg.hour, cfg.minute⟩ now = true then
                tblUpsert (username, ⟨jobId, ⟨targetDate.date, cfg.hour, cfg.minute⟩⟩)
                  (assumedCompletedRecord jobId .weekly ⟨targetDate.date, cfg.hour, cfg.minute⟩) tbl
              else
                tblUpsert (username, ⟨jobId, ⟨targetDate.date, cfg.hour, cfg.minute⟩⟩)
                  (pendingRecord jobId .weekly ⟨targetDate.date, cfg.hour, cfg.minute⟩) tbl
        else tbl

/-- The per-user part of initialize_daily_job_records (lines 510-527):
admins and users with scheduling disabled are skipped. -/
def initUserJobs (now targetDate : DateTime) (username : String)
    (us : UserSettings) (tbl : Table) : Table :=
  if us.userType = "admin" then tbl
  else if us.schedulingEnabled = false then tbl
  else us.jobs.foldl (fun t p => initJobRecord now targetDate username p.1 p.2 t) tbl

/-- Mirror of initialize_daily_job_records: clean up records from before the
target date, then create today's records for every user and job. -/
def initialize_daily_job_records (now targetDate : DateTime)
    (users : List (String × UserSettings)) (tbl : Table) : Table :=
  users.foldl (fun t p => initUserJobs now targetDate p.1 p.2 t)
    (cleanup_old_job_records ⟨targetDate.date, 0, 0⟩ tbl)

theorem initJobRecord_cases (now targetDate : DateTime) (username jobId : String)
    (cfg : JobConfig) (tbl : Table) :
    initJobRecord now targetDate username jobId cfg tbl = tbl ∨
    ∃ sched rec, initJobRecord now targetDate username jobId cfg tbl =
      tblUpsert (username, ⟨jobId, sched⟩) rec tbl := by
  unfold initJobRecord
  split
  · left; rfl
  · split
    · split
      · left; rfl
      · split
        · right; exact ⟨_, _, rfl⟩
        · right; exact ⟨_, _, rfl⟩
    · split
      · left; rfl
      · right; exact ⟨_, _, rfl⟩
    · split
      · split
        · left; rfl
        · split
          · right; exact ⟨_, _, rfl⟩
          · right; exact ⟨_, _, rfl⟩
      · left; rfl

theorem initJobRecord_lookup_other (now targetDate : DateTime)
    (username jobId : String) (cfg : JobConfig) (tbl : Table) (k : TblKey)
    (hk : k.1 ≠ username ∨ k.2.jobId ≠ jobId) :
    tblLookup k (initJobRecord now targetDate username jobId cfg tbl) =
      tblLookup k tbl := by
  rcases initJobRecord_cases now targetDate username jobId cfg tbl with hc | ⟨sched, rec, hc⟩
  · rw [hc]
  · rw [hc]
    refine tblLookup_tblUpsert_ne _ _ _ _ ?_
    intro he
    subst he
    rcases hk with h | h
    · exact h rfl
    · exact h rfl

theorem initJobRecord_self (now targetDate : DateTime) (username jobId : String)
    (cfg : JobConfig) (tbl : Table) (hen : cfg.enabled = true)
    (htype : cfg.type = .daily ∨
      (cfg.type = .weekly ∧ targetDate.weekday = cfg.dayOfWeek))
    (hnew : tblLookup (username, ⟨jobId, ⟨targetDate.date, cfg.hour, cfg.minute⟩⟩) tbl = none) :
    tblLookup (username, ⟨jobId, ⟨targetDate.date, cfg.hour, cfg.minute⟩⟩)
      (initJobRecord now targetDate username jobId cfg tbl) =
      some (if DateTime.isBefore ⟨targetDate.date, cfg.hour, cfg.minute⟩ now = true then
              assumedCompletedRecord jobId cfg.type ⟨targetDate.date, cfg.hour, cfg.minute⟩
            else pendingRecord jobId cfg.type ⟨targetDate.date, cfg.hour, cfg.minute⟩) := by
  have hen2 : ¬ (cfg.enabled = false) := by simp [hen]
  unfold initJobRecord
  rw [if_neg hen2]
  rcases htype with ht | ⟨ht, hw⟩
  · simp only [ht, hnew]
    by_cases hb : DateTime.isBefore ⟨targetDate.date, cfg.hour, cfg.minute⟩ now = true
    · rw [if_pos hb, if_pos hb]
      exact tblLookup_tblUpsert_self _ _ _
    · rw [if_neg hb, if_neg hb]
      exact tblLookup_tblUpsert_self _ _ _
  · simp only [ht, if_pos hw, hnew]
    by_cases hb : DateTime.isBefore ⟨targetDate.date, cfg.hour, cfg.minute⟩ now = true
    · rw [if_pos hb, if_pos hb]
      exact tblLookup_tblUpsert_self _ _ _
    · rw [if_neg hb, if_neg hb]
      exact tblLookup_tblUpsert_self _ _ _

theorem foldl_tblLookup_eq {α : Type} (f : Table → α → Table) (k : TblKey) :
    ∀ (l : List α), (∀ a ∈ l, ∀ t, tblLookup k (f t a) = tblLookup k t) →
      ∀ t, tblLookup k (l.foldl f t) = tblLookup k t := by
  intro l
  induction l with
  | nil => intro _ t; rfl
  | cons a rest ih =>
    intro h t
    rw [List.foldl_cons, ih (fun b hb t => h b (List.mem_cons_of_mem a hb) t),
      h a (List.mem_cons_self a rest) t]

theorem initUserJobs_lookup_other (now targetDate : DateTime) (un : String)
    (us : UserSettings) (tbl : Table) (k : TblKey) (h : k.1 ≠ un) :
    tblLookup k (initUserJobs now targetDate un us tbl) = tblLookup k tbl := by
  unfold initUserJobs
  split
  · rfl
  · split
    · rfl
    · exact foldl_tblLookup_eq _ k us.jobs
        (fun q hq t => initJobRecord_lookup_other now targetDate un q.1 q.2 t k
          (Or.inl h)) tbl

theorem tblLookup_cleanup_none (before : DateTime) (tbl : Table) (k : TblKey)
    (h : tblLookup k tbl = none) :
    tblLookup k (cleanup_old_job_records before tbl) = none := by
  induction tbl with
  | nil => rfl
  | cons p t ih =>
    obtain ⟨k', r⟩ := p
    by_cases hk : k' = k
    · rw [tblLookup, if_pos hk] at h
      cases h
    · rw [tblLookup, if_neg hk] at h
      unfold cleanup_old_job_records at ih ⊢
      rw [List.filter_cons]
      split
      · rw [tblLookup, if_neg hk]
        exact ih h
      · exact ih h

/-- C9: when initialize_daily_job_records runs, every enabled daily job —
and every enabled weekly job whose day matches — of a non-admin user with
scheduling on and no pre-existing record for today's slot gets its record
created directly: status completed with execution start and end times both
equal to the scheduled time when the slot is already earlier than the
current time, and status pending (with no execution times) only when the
slot is not in the past.  The function has no access to the executor
registry, so the completed record is written without the job's executor
ever being invoked. -/
theorem initialize_daily_job_records_spec (now targetDate : DateTime)
    (users : List (String × UserSettings)) (tbl : Table)
    (u j : String) (us : UserSettings) (cfg : JobConfig)
    (hu : (u, us) ∈ users) (hnd : (users.map Prod.fst).Nodup)
    (hju : (j, cfg) ∈ us.jobs) (hndj : (us.jobs.map Prod.fst).Nodup)
    (hadmin : ¬ (us.userType = "admin")) (hon : us.schedulingEnabled = true)
    (hen : cfg.enabled = true)
    (htype : cfg.type = .daily ∨
      (cfg.type = .weekly ∧ targetDate.weekday = cfg.dayOfWeek))
    (hnew : tblLookup (u, ⟨j, ⟨targetDate.date, cfg.hour, cfg.minute⟩⟩) tbl = none) :
    tblLookup (u, ⟨j, ⟨targetDate.date, cfg.hour, cfg.minute⟩⟩)
      (initialize_daily_job_records now targetDate users tbl) =
      some (if DateTime.isBefore ⟨targetDate.date, cfg.hour, cfg.minute⟩ now = true then
              assumedCompletedRecord j cfg.type ⟨targetDate.date, cfg.hour, cfg.minute⟩
            else pendingRecord j cfg.type ⟨targetDate.date, cfg.hour, cfg.minute⟩) := by
  obtain ⟨l1, l2, husplit⟩ := List.append_of_mem hu
  have hndu2 := husplit ▸ hnd
  rw [List.map_append, List.map_cons] at hndu2
  have hnodupu := List.nodup_append.mp hndu2
  have hl1 : ∀ q ∈ l1, q.1 ≠ u := by
    intro q hq he
    have h2 : u ∈ l1.map Prod.fst := by
      rw [← he]
      exact List.mem_map_of_mem Prod.fst hq
    have h3 : u ∈ ((u, us) : String × UserSettings).1 :: l2.map Prod.fst :=
      List.mem_cons_self _ _
    exact hnodupu.2.2 h2 h3
  have hl2 : ∀ q ∈ l2, q.1 ≠ u := by
    intro q hq he
    have h1 : (((u, us) : String × UserSettings).1) ∉ l2.map Prod.fst :=
      (List.nodup_cons.mp hnodupu.2.1).1
    have h2 : q.1 ∈ l2.map Prod.fst := List.mem_map_of_mem Prod.fst hq
    rw [he] at h2
    exact h1 h2
  obtain ⟨m1, m2, hjsplit⟩ := List.append_of_mem hju
  have hndj2 := hjsplit ▸ hndj
  rw [List.map_append, List.map_cons] at hndj2
  have hnodupj := List.nodup_append.mp hndj2
  have hm1 : ∀ q ∈ m1, q.1 ≠ j := by
    intro q hq he
    have h2 : j ∈ m1.map Prod.fst := by
      rw [← he]
      exact List.mem_map_of_mem Prod.fst hq
    have h3 : j ∈ ((j, cfg) : String × JobConfig).1 :: m2.map Prod.fst :=
      List.mem_cons_self _ _
    exact hnodupj.2.2 h2 h3
  have hm2 : ∀ q ∈ m2, q.1 ≠ j := by
    intro q hq he
    have h1 : (((j, cfg) : String × JobConfig).1) ∉ m2.map Prod.fst :=
      (List.nodup_cons.mp hnodupj.2.1).1
    have h2 : q.1 ∈ m2.map Prod.fst := List.mem_map_of_mem Prod.fst hq
    rw [he] at h2
    exact h1 h2
  unfold initialize_daily_job_records
  rw [husplit, List.foldl_append, List.foldl_cons]
  rw [foldl_tblLookup_eq _ _ l2
    (fun q hq t => initUserJobs_lookup_other now targetDate q.1 q.2 t
      (u, ⟨j, ⟨targetDate.date, cfg.hour, cfg.minute⟩⟩) (Ne.symm (hl2 q hq))) _]
  dsimp only
  unfold initUserJobs
  rw [if_neg hadmin]
  have hon2 : ¬ (us.schedulingEnabled = false) := by simp [hon]
  rw [if_neg hon2]
  rw [hjsplit, List.foldl_append, List.foldl_cons]
  rw [foldl_tblLookup_eq _ _ m2
    (fun q hq t => initJobRecord_lookup_other now targetDate u q.1 q.2 t
      (u, ⟨j, ⟨targetDate.date, cfg.hour, cfg.minute⟩⟩)
      (Or.inr (Ne.symm (hm2 q hq)))) _]
  dsimp only
  have hnewAcc : tblLookup (u, ⟨j, ⟨targetDate.date, cfg.hour, cfg.minute⟩⟩)
      (m1.foldl (fun t p => initJobRecord now targetDate u p.1 p.2 t)
        (l1.foldl (fun t p => initUserJobs now targetDate p.1 p.2 t)
          (cleanup_old_job_records ⟨targetDate.date, 0, 0⟩ tbl))) = none := by
    rw [foldl_tblLookup_eq _ _ m1
      (fun q hq t => initJobRecord_lookup_other now targetDate u q.1 q.2 t
        (u, ⟨j, ⟨targetDate.date, cfg.hour, cfg.minute⟩⟩)
        (Or.inr (Ne.symm (hm1 q hq)))) _]
    rw [foldl_tblLookup_eq _ _ l1
      (fun q hq t => initUserJobs_lookup_other now targetDate q.1 q.2 t
        (u, ⟨j, ⟨targetDate.date, cfg.hour, cfg.minute⟩⟩) (Ne.symm (hl1 q hq))) _]
    exact tblLookup_cleanup_none _ _ _ hnew
  exact initJobRecord_self now targetDate u j cfg _ hen htype hnewAcc

/-- Users for the C9 witness: a past daily job (02:00), a future daily job
(23:00) and a past weekly job on today's weekday (day index 10, weekday 3),
initialized at 08:00. -/
def c9Users : List (String × UserSettings) :=
  [("alice", ⟨"player", true,
     [("morning_routine", ⟨.daily, true, 2, 0, 0⟩),
      ("night_routine", ⟨.daily, true, 23, 0, 0⟩),
      ("saturday_routine", ⟨.weekly, true, 1, 30, 3⟩)]⟩)]

/-- Concrete instantiation of the C9 theorem: the 02:00 daily job and the
01:30 weekly job are created as completed with start = end = scheduled
time, while the 23:00 daily job is created pending. -/
theorem initialize_daily_job_records_spec_witness :
    tblLookup ("alice", ⟨"morning_routine", ⟨10, 2, 0⟩⟩)
      (initialize_daily_job_records ⟨10, 8, 0⟩ ⟨10, 8, 0⟩ c9Users []) =
      some (assumedCompletedRecord "morning_routine" .daily ⟨10, 2, 0⟩) ∧
    tblLookup ("alice", ⟨"night_routine", ⟨10, 23, 0⟩⟩)
      (initialize_daily_job_records ⟨10, 8, 0⟩ ⟨10, 8, 0⟩ c9Users []) =
      some (pendingRecord "night_routine" .daily ⟨10, 23, 0⟩) ∧
    tblLookup ("alice", ⟨"saturday_routine", ⟨10, 1, 30⟩⟩)
      (initialize_daily_job_records ⟨10, 8, 0⟩ ⟨10, 8, 0⟩ c9Users []) =
      some (assumedCompletedRecord "saturday_routine" .weekly ⟨10, 1, 30⟩) := by
  have h1 := initialize_daily_job_records_spec ⟨10, 8, 0⟩ ⟨10, 8, 0⟩ c9Users []
    "alice" "morning_routine"
    ⟨"player", true,
      [("morning_routine", ⟨.daily, true, 2, 0, 0⟩),
       ("night_routine", ⟨.daily, true, 23, 0, 0⟩),
       ("saturday_routine", ⟨.weekly, true, 1, 30, 3⟩)]⟩
    ⟨.daily, true, 2, 0, 0⟩ (by decide) (by decide) (by decide) (by decide)
    (by decide) rfl rfl (Or.inl rfl) rfl
  have h2 := initialize_daily_job_records_spec ⟨10, 8, 0⟩ ⟨10, 8, 0⟩ c9Users []
    "alice" "night_routine"
    ⟨"player", true,
      [("morning_routine", ⟨.daily, true, 2, 0, 0⟩),
       ("night_routine", ⟨.daily, true, 23, 0, 0⟩),
       ("saturday_routine", ⟨.weekly, true, 1, 30, 3⟩)]⟩
    ⟨.daily, true, 23, 0, 0⟩ (by decide) (by decide) (by decide) (by decide)
    (by decide) rfl rfl (Or.inl rfl) rfl
  have h3 := initialize_daily_job_records_spec ⟨10, 8, 0⟩ ⟨10, 8, 0⟩ c9Users []
    "alice" "saturday_routine"
    ⟨"player", true,
      [("morning_routine", ⟨.daily, true, 2, 0, 0⟩),
       ("night_routine", ⟨.daily, true, 23, 0, 0⟩),
       ("saturday_routine", ⟨.weekly, true, 1, 30, 3⟩)]⟩
    ⟨.weekly, true, 1, 30, 3⟩ (by decide) (by decide) (by decide) (by decide)
    (by decide) rfl rfl (Or.inr ⟨rfl, by decide⟩) rfl
  rw [if_pos (by decide : DateTime.isBefore ⟨10, 2, 0⟩ ⟨10, 8, 0⟩ = true)] at h1
  rw [if_neg (by decide : ¬ (DateTime.isBefore ⟨10, 23, 0⟩ ⟨10, 8, 0⟩ = true))] at h2
  rw [if_pos (by decide : DateTime.isBefore ⟨10, 1, 30⟩ ⟨10, 8, 0⟩ = true)] at h3
  exact ⟨h1, h2, h3⟩

end HeroAgent
